import Mathlib

/-!
Shallow embedding of the `godatabaseversioner` Go library
(`version.go` and `listeners.go`).

Go errors are opaque values; we model them as strings.  The collaborator
interfaces (`VersionApplier`, `Version`, `Listener`) are modelled by
oracles: a `Version`'s `Upgrade()`/`Rollback()` outcome is stored in the
version value, the applier's `CurrentVersion()` answer and the outcome of
each `SyncVersion(n)` call are passed to `sync` as parameters, and a
listener is a function from events to an optional error.  `sync` returns,
besides the Go function's `error` result (structured after the exact
`fmt.Errorf` shapes of the source), the complete trace of collaborator
calls it performed, in order.
-/

namespace GoDatabaseVersioner

/-- Go `error` values are opaque; modelled as strings. -/
abbrev GoErr := String

/-- The event-type constants of `version.go` (lines 11-20). -/
inductive EventType where
  | EventStart
  | EventEnd
  | EventBeforeSync
  | EventAfterSync
  | EventBeforeChange
  | EventAfterChange
  | EventErrorDuringChange
  | EventError
  deriving DecidableEq

/-- A `Version` (interface of `version.go` lines 36-45): a number together
with the outcomes its `Upgrade()` and `Rollback()` actions would produce
(`none` = success, `some e` = the error `e`). -/
structure Version where
  number : Int
  upgradeResult : Option GoErr
  rollbackResult : Option GoErr
  deriving DecidableEq

/-- An `Event` (struct of `version.go` lines 23-27); `version` and `error`
are the possibly-nil fields. -/
structure Event where
  type : EventType
  version : Option Version
  error : Option GoErr
  deriving DecidableEq

/-- `Event{EventStart, nil, nil}`. -/
def startEv : Event := ⟨.EventStart, none, none⟩

/-- `Event{EventEnd, nil, nil}`. -/
def endEv : Event := ⟨.EventEnd, none, none⟩

/-- `Event{EventBeforeSync, nil, nil}`. -/
def beforeSyncEv : Event := ⟨.EventBeforeSync, none, none⟩

/-- `Event{EventAfterSync, nil, nil}`. -/
def afterSyncEv : Event := ⟨.EventAfterSync, none, none⟩

/-- `Event{EventBeforeChange, version, nil}`. -/
def beforeChangeEv (v : Version) : Event := ⟨.EventBeforeChange, some v, none⟩

/-- `Event{EventAfterChange, version, nil}`. -/
def afterChangeEv (v : Version) : Event := ⟨.EventAfterChange, some v, none⟩

/-- `Event{EventErrorDuringChange, version, err}`. -/
def errorDuringChangeEv (v : Version) (e : GoErr) : Event :=
  ⟨.EventErrorDuringChange, some v, some e⟩

/-- `Event{EventError, nil, err}`. -/
def errorEv (e : GoErr) : Event := ⟨.EventError, none, some e⟩

/-- One collaborator call performed during `Sync`, in trace order. -/
inductive Call where
  | listenerOn (e : Event)
  | currentVersionCall
  | upgradeCall (v : Version)
  | rollbackCall (v : Version)
  | syncVersionCall (n : Int)
  deriving DecidableEq

/-- The structured shape of every `error` value `Sync` can return, one
constructor per `fmt.Errorf` format string in `version.go`. -/
inductive SyncErr where
  /-- `"event %s: %w"` -/
  | eventErr (t : EventType) (e : GoErr)
  /-- `"could not sync (event error: %s): %w"` -/
  | couldNotSyncEventErr (eventErr : GoErr) (e : GoErr)
  /-- `"could not sync: %w"` -/
  | couldNotSync (e : GoErr)
  /-- `"upgrade to version %d (event error: %s): %w"` -/
  | upgradeEventErr (n : Int) (eventErr : GoErr) (e : GoErr)
  /-- `"upgrade to version %d: %w"` -/
  | upgradeErr (n : Int) (e : GoErr)
  /-- `"rollback to version %d (event error: %s): %w"` -/
  | rollbackEventErr (n : Int) (eventErr : GoErr) (e : GoErr)
  /-- `"rollback to version %d: %w"` -/
  | rollbackErr (n : Int) (e : GoErr)
  /-- `"sync version to %d (event error: %s): %w"` -/
  | syncVersionEventErr (n : Int) (eventErr : GoErr) (e : GoErr)
  /-- `"sync version to %d: %w"` -/
  | syncVersionErr (n : Int) (e : GoErr)
  deriving DecidableEq

/-- Whether a `SyncErr` is of the `"event %s: %w"` shape, i.e. carries the
event type that raised it. -/
def SyncErr.wrapsEventType : SyncErr → Bool
  | .eventErr _ _ => true
  | _ => false

/-- A `Listener` (`Listener.On`) modelled as a pure reaction to events. -/
abbrev ListenerFun := Event → Option GoErr

/-- The `Versioner` struct: its versions and its listener.  The applier is
supplied per call as oracles (see `Versioner.sync`). -/
structure Versioner where
  versions : List Version
  listener : ListenerFun

/-- `NoOpListener.On` (`listeners.go` lines 13-15): always succeeds. -/
def NoOpListener : ListenerFun := fun _ => none

/-- `loadVersionsToApply` (`version.go` lines 165-181): one pass over the
(already sorted) versions; in upgrade direction the selected versions are
appended (order kept), in rollback direction they are prepended (order
reversed). -/
def loadVersionsToApply (vs : List Version) (upgrade : Bool)
    (currentVersion targetVersion : Int) : List Version :=
  vs.foldl
    (fun toApply version =>
      if upgrade then
        if version.number > currentVersion ∧ version.number < targetVersion then
          toApply ++ [version]
        else toApply
      else
        if version.number < currentVersion ∧ version.number > targetVersion then
          version :: toApply
        else toApply)
    []

/-- The `sort.Slice` step of `Sync` (`version.go` lines 113-115): sort the
versions nondecreasingly by number.  Go's comparator is
`Versions[i].Number() < Versions[j].Number()` and the sort is unstable,
so the relative order of equal-numbered versions is unspecified;
insertion sort is one refinement of it (the spec makes duplicate numbers
a caller error). -/
def sortVersions (vs : List Version) : List Version :=
  List.insertionSort (fun a b => a.number ≤ b.number) vs

/-- The apply loop of `Sync` (`version.go` lines 126-154), over the already
selected `versionsToApply`.  `syncRes n` is the outcome the applier's
`SyncVersion(n)` would produce.  Returns the Go `error` result and the trace
of collaborator calls. -/
def applyLoop (listener : ListenerFun) (syncRes : Int → Option GoErr)
    (upgrade : Bool) : List Version → Option SyncErr × List Call
  | [] => (none, [])
  | version :: rest =>
    match listener (beforeChangeEv version) with
    | some e =>
      (some (.eventErr .EventBeforeChange e), [.listenerOn (beforeChangeEv version)])
    | none =>
      let actionCall : Call :=
        if upgrade then .upgradeCall version else .rollbackCall version
      let actionResult : Option GoErr :=
        if upgrade then version.upgradeResult else version.rollbackResult
      match actionResult with
      | some err =>
        let errOut : SyncErr :=
          match listener (errorDuringChangeEv version err) with
          | some eventErr =>
            if upgrade then .upgradeEventErr version.number eventErr err
            else .rollbackEventErr version.number eventErr err
          | none =>
            if upgrade then .upgradeErr version.number err
            else .rollbackErr version.number err
        (some errOut,
          [.listenerOn (beforeChangeEv version), actionCall,
           .listenerOn (errorDuringChangeEv version err)])
      | none =>
        match syncRes version.number with
        | some err =>
          let errOut : SyncErr :=
            match listener (errorDuringChangeEv version err) with
            | some eventErr => .syncVersionEventErr version.number eventErr err
            | none => .syncVersionErr version.number err
          (some errOut,
            [.listenerOn (beforeChangeEv version), actionCall,
             .syncVersionCall version.number,
             .listenerOn (errorDuringChangeEv version err)])
        | none =>
          match listener (afterChangeEv version) with
          | some e =>
            (some (.eventErr .EventAfterChange e),
              [.listenerOn (beforeChangeEv version), actionCall,
               .syncVersionCall version.number, .listenerOn (afterChangeEv version)])
          | none =>
            let res := applyLoop listener syncRes upgrade rest
            (res.1,
              [.listenerOn (beforeChangeEv version), actionCall,
               .syncVersionCall version.number, .listenerOn (afterChangeEv version)]
              ++ res.2)

/-- `Versioner.Sync` (`version.go` lines 94-163).  `curRes` is what the
applier's `CurrentVersion()` returns; `syncRes n` is what `SyncVersion(n)`
returns.  Produces the Go `error` result and the full collaborator-call
trace. -/
def Versioner.sync (vr : Versioner) (curRes : Except GoErr Int)
    (syncRes : Int → Option GoErr) (targetVersion : Int) :
    Option SyncErr × List Call :=
  match vr.listener startEv with
  | some e => (some (.eventErr .EventStart e), [.listenerOn startEv])
  | none =>
    match curRes with
    | .error err =>
      match vr.listener (errorEv err) with
      | some eventErr =>
        (some (.couldNotSyncEventErr eventErr err),
          [.listenerOn startEv, .currentVersionCall, .listenerOn (errorEv err)])
      | none =>
        (some (.couldNotSync err),
          [.listenerOn startEv, .currentVersionCall, .listenerOn (errorEv err)])
    | .ok currentVersion =>
      if currentVersion = targetVersion then
        match vr.listener endEv with
        | some e =>
          (some (.eventErr .EventEnd e),
            [.listenerOn startEv, .currentVersionCall, .listenerOn endEv])
        | none =>
          (none, [.listenerOn startEv, .currentVersionCall, .listenerOn endEv])
      else
        -- Go: `upgrade := true; if targetVersion < currentVersion { upgrade = false }`
        let upgrade : Bool := !(targetVersion < currentVersion)
        let versionsToApply :=
          loadVersionsToApply (sortVersions vr.versions) upgrade
            currentVersion targetVersion
        match vr.listener beforeSyncEv with
        | some e =>
          (some (.eventErr .EventBeforeSync e),
            [.listenerOn startEv, .currentVersionCall, .listenerOn beforeSyncEv])
        | none =>
          match applyLoop vr.listener syncRes upgrade versionsToApply with
          | (some e, tr) =>
            (some e,
              [.listenerOn startEv, .currentVersionCall, .listenerOn beforeSyncEv] ++ tr)
          | (none, tr) =>
            match vr.listener afterSyncEv with
            | some e =>
              (some (.eventErr .EventAfterSync e),
                [.listenerOn startEv, .currentVersionCall, .listenerOn beforeSyncEv]
                  ++ tr ++ [.listenerOn afterSyncEv])
            | none =>
              match vr.listener endEv with
              | some e =>
                (some (.eventErr .EventEnd e),
                  [.listenerOn startEv, .currentVersionCall, .listenerOn beforeSyncEv]
                    ++ tr ++ [.listenerOn afterSyncEv, .listenerOn endEv])
              | none =>
                (none,
                  [.listenerOn startEv, .currentVersionCall, .listenerOn beforeSyncEv]
                    ++ tr ++ [.listenerOn afterSyncEv, .listenerOn endEv])

/-- `Versioner.LastVersion` (`version.go` lines 77-86): fold over the held
versions keeping the largest number seen, starting from 0. -/
def Versioner.LastVersion (vr : Versioner) : Int :=
  vr.versions.foldl
    (fun versionNb version =>
      if version.number > versionNb then version.number else versionNb) 0

/-- `Versioner.UpgradeToLast` (`version.go` lines 89-91). -/
def Versioner.UpgradeToLast (vr : Versioner) (curRes : Except GoErr Int)
    (syncRes : Int → Option GoErr) : Option SyncErr × List Call :=
  vr.sync curRes syncRes vr.LastVersion

/-- The version an applier like `PostgresVersionApplier` reports after the
trace `calls`: the argument of the last `SyncVersion` call, or `reg` if no
`SyncVersion` call happened. -/
def lastSyncedIn (calls : List Call) (reg : Int) : Int :=
  calls.foldl
    (fun acc c => match c with | .syncVersionCall n => n | _ => acc) reg

/-- `Sync` run against a register-style applier (the behaviour the
`PostgresVersionApplier` implements): `CurrentVersion` returns the most
recently recorded version `reg`, `SyncVersion` records its argument and
never fails.  Returns the result, the trace and the applier's recorded
version afterwards. -/
def Versioner.syncRegister (vr : Versioner) (reg : Int) (targetVersion : Int) :
    Option SyncErr × List Call × Int :=
  let res := vr.sync (.ok reg) (fun _ => none) targetVersion
  (res.1, res.2, lastSyncedIn res.2 reg)

/-! ### Helper notions used to state the claims -/

/-- The trace a single successful upgrade step leaves:
before-change, the upgrade action, the `SyncVersion` persist, after-change. -/
def upgradeBlock (v : Version) : List Call :=
  [.listenerOn (beforeChangeEv v), .upgradeCall v,
   .syncVersionCall v.number, .listenerOn (afterChangeEv v)]

/-- The trace a single successful rollback step leaves. -/
def rollbackBlock (v : Version) : List Call :=
  [.listenerOn (beforeChangeEv v), .rollbackCall v,
   .syncVersionCall v.number, .listenerOn (afterChangeEv v)]

/-- The action call one loop step performs: `Upgrade()` in upgrade
direction, `Rollback()` otherwise. -/
def actionCallOf (upgrade : Bool) (v : Version) : Call :=
  if upgrade then .upgradeCall v else .rollbackCall v

/-- The outcome of one loop step's action, per direction. -/
def actionResultOf (upgrade : Bool) (v : Version) : Option GoErr :=
  if upgrade then v.upgradeResult else v.rollbackResult

/-- The trace a single successful step leaves, per direction:
before-change, the action, the `SyncVersion` persist, after-change. -/
def changeBlock (upgrade : Bool) (v : Version) : List Call :=
  [.listenerOn (beforeChangeEv v), actionCallOf upgrade v,
   .syncVersionCall v.number, .listenerOn (afterChangeEv v)]

/-- The error `Sync` returns when the action of version `n` failed with `e`
and the listener then failed on `error-during-change` with `eventErr`,
per direction. -/
def actionEventErr (upgrade : Bool) (n : Int) (eventErr : GoErr) (e : GoErr) :
    SyncErr :=
  if upgrade then .upgradeEventErr n eventErr e
  else .rollbackEventErr n eventErr e

/-- The common `start`, `CurrentVersion`, `before-sync` trace head. -/
def syncHead : List Call :=
  [.listenerOn startEv, .currentVersionCall, .listenerOn beforeSyncEv]

/-- The common `after-sync`, `end` trace tail. -/
def syncTail : List Call :=
  [.listenerOn afterSyncEv, .listenerOn endEv]

/-! ### Lemmas about the selection step -/

theorem loadVersionsToApply_true (vs : List Version) (c t : Int) :
    loadVersionsToApply vs true c t
      = vs.filter fun v => decide (c < v.number ∧ v.number < t) := by
  suffices h : ∀ acc : List Version,
      vs.foldl
        (fun toApply version =>
          if version.number > c ∧ version.number < t then toApply ++ [version]
          else toApply) acc
        = acc ++ vs.filter fun v => decide (c < v.number ∧ v.number < t) by
    have h0 := h []
    simpa [loadVersionsToApply] using h0
  induction vs with
  | nil => intro acc; simp
  | cons v vs ih =>
    intro acc
    by_cases hv : v.number > c ∧ v.number < t
    · simp [List.foldl_cons, if_pos hv, ih, List.filter_cons,
        decide_eq_true_eq, hv]
    · simp [List.foldl_cons, if_neg hv, ih, List.filter_cons,
        decide_eq_true_eq, hv]

theorem loadVersionsToApply_false (vs : List Version) (c t : Int) :
    loadVersionsToApply vs false c t
      = (vs.filter fun v => decide (v.number < c ∧ t < v.number)).reverse := by
  suffices h : ∀ acc : List Version,
      vs.foldl
        (fun toApply version =>
          if version.number < c ∧ version.number > t then version :: toApply
          else toApply) acc
        = (vs.filter fun v => decide (v.number < c ∧ t < v.number)).reverse ++ acc by
    have h0 := h []
    simpa [loadVersionsToApply] using h0
  induction vs with
  | nil => intro acc; simp
  | cons v vs ih =>
    intro acc
    by_cases hv : v.number < c ∧ v.number > t
    · simp [List.foldl_cons, if_pos hv, ih, List.filter_cons,
        decide_eq_true_eq, hv]
    · simp [List.foldl_cons, if_neg hv, ih, List.filter_cons,
        decide_eq_true_eq, hv]

/-! ### Lemmas about the apply loop -/

theorem applyLoop_upgrade_allOk (listener : ListenerFun)
    (syncRes : Int → Option GoErr) (l : List Version)
    (hL : ∀ e, listener e = none) (hS : ∀ n, syncRes n = none)
    (hU : ∀ v ∈ l, v.upgradeResult = none) :
    applyLoop listener syncRes true l = (none, l.flatMap upgradeBlock) := by
  induction l with
  | nil => simp [applyLoop]
  | cons v l ih =>
    have hv : v.upgradeResult = none := hU v (List.mem_cons_self v l)
    have ih' := ih fun w hw => hU w (List.mem_cons_of_mem v hw)
    simp [applyLoop, hL, hS, hv, ih', upgradeBlock]

theorem applyLoop_rollback_allOk (listener : ListenerFun)
    (syncRes : Int → Option GoErr) (l : List Version)
    (hL : ∀ e, listener e = none) (hS : ∀ n, syncRes n = none)
    (hR : ∀ v ∈ l, v.rollbackResult = none) :
    applyLoop listener syncRes false l = (none, l.flatMap rollbackBlock) := by
  induction l with
  | nil => simp [applyLoop]
  | cons v l ih =>
    have hv : v.rollbackResult = none := hR v (List.mem_cons_self v l)
    have ih' := ih fun w hw => hR w (List.mem_cons_of_mem v hw)
    simp [applyLoop, hL, hS, hv, ih', rollbackBlock]

/-- Unfolding `sync` when the listener never fails, the current version is
read successfully and differs from the target: the result is that of the
apply loop, with the standard head and (on success) tail around its trace. -/
theorem sync_expand (vr : Versioner) (syncRes : Int → Option GoErr) (c t : Int)
    (hL : ∀ e, vr.listener e = none) (hne : c ≠ t) :
    vr.sync (.ok c) syncRes t
      = match applyLoop vr.listener syncRes (!(t < c))
          (loadVersionsToApply (sortVersions vr.versions) (!(t < c)) c t) with
        | (some e, tr) => (some e, syncHead ++ tr)
        | (none, tr) => (none, syncHead ++ tr ++ syncTail) := by
  simp only [Versioner.sync, hL, if_neg hne, syncHead, syncTail]

/-! ### Lemmas about the sort step -/

instance : IsTotal Version fun a b => a.number ≤ b.number :=
  ⟨fun a b => le_total a.number b.number⟩

instance : IsTrans Version fun a b => a.number ≤ b.number :=
  ⟨fun _ _ _ hab hbc => le_trans hab hbc⟩

theorem sortVersions_perm (vs : List Version) : (sortVersions vs).Perm vs :=
  List.perm_insertionSort _ vs

theorem sortVersions_sorted (vs : List Version) :
    (sortVersions vs).Pairwise fun a b => a.number ≤ b.number :=
  List.sorted_insertionSort _ vs

theorem sortedFilter_pairwise_lt (vs : List Version) (p : Version → Bool)
    (hN : (vs.map fun v => v.number).Nodup) :
    ((sortVersions vs).filter p).Pairwise fun a b => a.number < b.number := by
  have hperm := sortVersions_perm vs
  have hnd : ((sortVersions vs).map fun v => v.number).Nodup :=
    ((hperm.map fun v => v.number).symm).nodup hN
  have hne : (sortVersions vs).Pairwise fun a b => a.number ≠ b.number :=
    List.pairwise_map.mp hnd
  have hcomb := (sortVersions_sorted vs).and hne
  exact (hcomb.imp fun h => lt_of_le_of_ne h.1 h.2).filter p

theorem mem_sortedFilter (vs : List Version) (p : Version → Bool) (v : Version) :
    v ∈ (sortVersions vs).filter p ↔ v ∈ vs ∧ p v := by
  rw [List.mem_filter, (sortVersions_perm vs).mem_iff]

/-! ### The claims -/

/-- C1: for every `Sync(target)` call where the current version read from
the Applier is strictly less than `target` (the listener not interfering,
version numbers pairwise distinct as the spec requires, and the selected
upgrades and persists succeeding), the sequence of Versions applied is
exactly the held Versions with `current < number < target`, in strictly
ascending order of number, and for each one `Upgrade()` is invoked and then
`SyncVersion(its number)` is called, as the trace equality shows. -/
theorem sync_upgrade_applies_exact_window (vr : Versioner)
    (syncRes : Int → Option GoErr) (c t : Int)
    (hL : ∀ e, vr.listener e = none)
    (hN : (vr.versions.map fun v => v.number).Nodup)
    (hS : ∀ n, syncRes n = none)
    (hU : ∀ v ∈ vr.versions, c < v.number → v.number < t → v.upgradeResult = none)
    (hct : c < t) :
    ∃ applied : List Version,
      vr.sync (.ok c) syncRes t
        = (none, syncHead ++ applied.flatMap upgradeBlock ++ syncTail)
      ∧ applied.Perm (vr.versions.filter fun v => decide (c < v.number ∧ v.number < t))
      ∧ applied.Pairwise fun a b => a.number < b.number := by
  refine ⟨(sortVersions vr.versions).filter
      fun v => decide (c < v.number ∧ v.number < t), ?_,
    (sortVersions_perm _).filter _, sortedFilter_pairwise_lt _ _ hN⟩
  have hne : c ≠ t := ne_of_lt hct
  have hdir : (!(decide (t < c))) = true := by simp [lt_asymm hct]
  rw [sync_expand vr syncRes c t hL hne]
  rw [hdir, loadVersionsToApply_true]
  rw [applyLoop_upgrade_allOk vr.listener syncRes _ hL hS ?_]
  intro v hv
  rw [mem_sortedFilter] at hv
  rcases hv with ⟨hvv, hvp⟩
  rw [decide_eq_true_eq] at hvp
  exact hU v hvv hvp.1 hvp.2

/-- Witness for C1 at a concrete input: versions numbered 1, 3, 2 (held out
of order), current 0, target 4: all three are applied, ascending. -/
theorem sync_upgrade_applies_exact_window_witness :
    ∃ applied : List Version,
      Versioner.sync ⟨[⟨1, none, none⟩, ⟨3, none, none⟩, ⟨2, none, none⟩],
          NoOpListener⟩ (.ok 0) (fun _ => none) 4
        = (none, syncHead ++ applied.flatMap upgradeBlock ++ syncTail)
      ∧ applied.Perm
          (List.filter (fun v => decide ((0:Int) < v.number ∧ v.number < 4))
            [⟨1, none, none⟩, ⟨3, none, none⟩, ⟨2, none, none⟩])
      ∧ applied.Pairwise fun a b => a.number < b.number :=
  sync_upgrade_applies_exact_window
    ⟨[⟨1, none, none⟩, ⟨3, none, none⟩, ⟨2, none, none⟩], NoOpListener⟩
    (fun _ => none) 0 4 (fun _ => rfl) (by decide) (fun _ => rfl)
    (by decide) (by decide)

/-- C2: for every `Sync(target)` call where the current version read from
the Applier is strictly greater than `target` (same ambient assumptions as
C1, with rollbacks succeeding), the sequence of Versions applied is exactly
the held Versions with `target < number < current`, in strictly descending
order of number, and for each one `Rollback()` is invoked and then
`SyncVersion(its number)` is called. -/
theorem sync_rollback_applies_exact_window (vr : Versioner)
    (syncRes : Int → Option GoErr) (c t : Int)
    (hL : ∀ e, vr.listener e = none)
    (hN : (vr.versions.map fun v => v.number).Nodup)
    (hS : ∀ n, syncRes n = none)
    (hR : ∀ v ∈ vr.versions, t < v.number → v.number < c → v.rollbackResult = none)
    (htc : t < c) :
    ∃ applied : List Version,
      vr.sync (.ok c) syncRes t
        = (none, syncHead ++ applied.flatMap rollbackBlock ++ syncTail)
      ∧ applied.Perm (vr.versions.filter fun v => decide (v.number < c ∧ t < v.number))
      ∧ applied.Pairwise fun a b => b.number < a.number := by
  refine ⟨((sortVersions vr.versions).filter
      fun v => decide (v.number < c ∧ t < v.number)).reverse, ?_, ?_, ?_⟩
  · have hne : c ≠ t := (ne_of_lt htc).symm
    have hdir : (!(decide (t < c))) = false := by simp [htc]
    rw [sync_expand vr syncRes c t hL hne]
    rw [hdir, loadVersionsToApply_false]
    rw [applyLoop_rollback_allOk vr.listener syncRes _ hL hS ?_]
    intro v hv
    rw [List.mem_reverse, mem_sortedFilter] at hv
    rcases hv with ⟨hvv, hvp⟩
    rw [decide_eq_true_eq] at hvp
    exact hR v hvv hvp.2 hvp.1
  · exact (List.reverse_perm _).trans ((sortVersions_perm _).filter _)
  · rw [List.pairwise_reverse]
    exact sortedFilter_pairwise_lt _ _ hN

/-- Witness for C2 at a concrete input: versions numbered 1, 3, 2, current
4, target 0: all three are rolled back, descending. -/
theorem sync_rollback_applies_exact_window_witness :
    ∃ applied : List Version,
      Versioner.sync ⟨[⟨1, none, none⟩, ⟨3, none, none⟩, ⟨2, none, none⟩],
          NoOpListener⟩ (.ok 4) (fun _ => none) 0
        = (none, syncHead ++ applied.flatMap rollbackBlock ++ syncTail)
      ∧ applied.Perm
          (List.filter (fun v => decide (v.number < (4:Int) ∧ (0:Int) < v.number))
            [⟨1, none, none⟩, ⟨3, none, none⟩, ⟨2, none, none⟩])
      ∧ applied.Pairwise fun a b => b.number < a.number :=
  sync_rollback_applies_exact_window
    ⟨[⟨1, none, none⟩, ⟨3, none, none⟩, ⟨2, none, none⟩], NoOpListener⟩
    (fun _ => none) 4 0 (fun _ => rfl) (by decide) (fun _ => rfl)
    (by decide) (by decide)

/-- C4: when the current version read from the Applier equals the target
(and the listener does not veto `start`/`end`), `Sync` returns success with
a trace of exactly the `start` listener call, the single `CurrentVersion`
read and the `end` listener call: no other Applier or Version calls, no
scripts, no before/after-sync events. -/
theorem sync_noop_when_current_eq_target (vr : Versioner)
    (syncRes : Int → Option GoErr) (t : Int)
    (h1 : vr.listener startEv = none) (h2 : vr.listener endEv = none) :
    vr.sync (.ok t) syncRes t
      = (none, [.listenerOn startEv, .currentVersionCall, .listenerOn endEv]) := by
  simp [Versioner.sync, h1, h2]

/-- Witness for C4 at a concrete input. -/
theorem sync_noop_when_current_eq_target_witness :
    Versioner.sync ⟨[⟨1, none, none⟩, ⟨2, none, none⟩], NoOpListener⟩
        (.ok 5) (fun _ => none) 5
      = (none, [.listenerOn startEv, .currentVersionCall, .listenerOn endEv]) :=
  sync_noop_when_current_eq_target
    ⟨[⟨1, none, none⟩, ⟨2, none, none⟩], NoOpListener⟩ (fun _ => none) 5 rfl rfl

/-! ### Lemmas for `LastVersion` -/

theorem lastVersion_step_eq_max (a b : Int) :
    (if b > a then b else a) = max a b := by
  rcases le_or_lt b a with h | h
  · rw [if_neg (not_lt.mpr h), max_eq_left h]
  · rw [if_pos h, max_eq_right (le_of_lt h)]

theorem LastVersion_eq_foldl_max (vr : Versioner) :
    vr.LastVersion = (vr.versions.map fun v => v.number).foldl max 0 := by
  rw [Versioner.LastVersion, List.foldl_map]
  congr 1
  funext a v
  exact lastVersion_step_eq_max a v.number

theorem foldl_max_cases (l : List Int) : ∀ b : Int,
    l.foldl max b = b ∨ l.foldl max b ∈ l := by
  induction l with
  | nil => intro b; left; rfl
  | cons a l ih =>
    intro b
    rw [List.foldl_cons]
    rcases ih (max b a) with h | h
    · rcases max_choice b a with hm | hm
      · left; rw [h, hm]
      · right; rw [h, hm]; exact List.mem_cons_self a l
    · right; exact List.mem_cons_of_mem a h

theorem le_foldl_max (l : List Int) : ∀ b : Int,
    b ≤ l.foldl max b ∧ ∀ x ∈ l, x ≤ l.foldl max b := by
  induction l with
  | nil => intro b; exact ⟨le_refl b, by simp⟩
  | cons a l ih =>
    intro b
    rw [List.foldl_cons]
    refine ⟨le_trans (le_max_left b a) (ih (max b a)).1, ?_⟩
    intro x hx
    rcases List.mem_cons.mp hx with rfl | hx
    · exact le_trans (le_max_right b x) (ih (max b x)).1
    · exact (ih (max b a)).2 x hx

/-- C5: `LastVersion()` over an empty Version collection returns 0; over a
non-empty collection (of nonnegative version numbers, the spec's convention
that numbers start at 0) it returns the maximum number present; and it is
independent of the collection order. -/
theorem LastVersion_spec (vr : Versioner) :
    (vr.versions = [] → vr.LastVersion = 0)
    ∧ (vr.versions ≠ [] → (∀ v ∈ vr.versions, 0 ≤ v.number) →
        (∃ v ∈ vr.versions, vr.LastVersion = v.number)
        ∧ ∀ v ∈ vr.versions, v.number ≤ vr.LastVersion)
    ∧ ∀ vs2 : List Version, vs2.Perm vr.versions →
        Versioner.LastVersion ⟨vs2, vr.listener⟩ = vr.LastVersion := by
  refine ⟨?_, ?_, ?_⟩
  · intro h
    rw [Versioner.LastVersion, h]
    rfl
  · intro hne hpos
    have hub := (le_foldl_max (vr.versions.map fun v => v.number) 0).2
    constructor
    · rcases foldl_max_cases (vr.versions.map fun v => v.number) 0 with h | h
      · rcases List.exists_mem_of_ne_nil vr.versions hne with ⟨v, hv⟩
        refine ⟨v, hv, le_antisymm ?_ ?_⟩
        · rw [LastVersion_eq_foldl_max, h]
          exact hpos v hv
        · rw [LastVersion_eq_foldl_max]
          exact hub v.number (List.mem_map_of_mem _ hv)
      · rcases List.mem_map.mp h with ⟨v, hv, hvn⟩
        exact ⟨v, hv, by rw [LastVersion_eq_foldl_max, ← hvn]⟩
    · intro v hv
      rw [LastVersion_eq_foldl_max]
      exact hub v.number (List.mem_map_of_mem _ hv)
  · intro vs2 hperm
    rw [LastVersion_eq_foldl_max, LastVersion_eq_foldl_max]
    exact @List.Perm.foldl_eq' Int Int max _ _ (hperm.map fun v => v.number)
      (fun x _ y _ z => by rw [max_assoc, max_comm x y, ← max_assoc]) 0

/-- Witness for C5 at a concrete input: numbers 2, 7, 7, 3 held out of
order, maximum 7, and a permutation gives the same answer. -/
theorem LastVersion_spec_witness :
    ((([] : List Version) = [] →
        Versioner.LastVersion ⟨[], NoOpListener⟩ = 0)
      ∧ Versioner.LastVersion ⟨[], NoOpListener⟩ = 0)
    ∧ (∃ v ∈ [(⟨2, none, none⟩ : Version), ⟨7, none, none⟩, ⟨3, none, none⟩],
        Versioner.LastVersion
          ⟨[⟨2, none, none⟩, ⟨7, none, none⟩, ⟨3, none, none⟩], NoOpListener⟩
          = v.number)
    ∧ Versioner.LastVersion
        ⟨[⟨3, none, none⟩, ⟨2, none, none⟩, ⟨7, none, none⟩], NoOpListener⟩
      = Versioner.LastVersion
          ⟨[⟨2, none, none⟩, ⟨7, none, none⟩, ⟨3, none, none⟩], NoOpListener⟩ := by
  refine ⟨⟨(LastVersion_spec ⟨[], NoOpListener⟩).1, ?_⟩, ?_, ?_⟩
  · exact (LastVersion_spec ⟨[], NoOpListener⟩).1 rfl
  · exact ((LastVersion_spec
      ⟨[⟨2, none, none⟩, ⟨7, none, none⟩, ⟨3, none, none⟩], NoOpListener⟩).2.1
      (by decide) (by decide)).1
  · exact (LastVersion_spec
      ⟨[⟨2, none, none⟩, ⟨7, none, none⟩, ⟨3, none, none⟩], NoOpListener⟩).2.2
      [⟨3, none, none⟩, ⟨2, none, none⟩, ⟨7, none, none⟩] (by decide)

/-! ### The broadcast listener (`listeners.go` lines 23-35) -/

/-- `EventBroadcastListener` holds an ordered sequence of sub-listeners. -/
structure EventBroadcastListener where
  Listeners : List ListenerFun

/-- The loop of `EventBroadcastListener.On`: invoke each sub-listener in
sequence order, returning at the first failure.  Besides the Go result it
returns how many sub-listeners were invoked (observed the event). -/
def broadcastOnCount (e : Event) : List ListenerFun → Option GoErr × Nat
  | [] => (none, 0)
  | l :: rest =>
    match l e with
    | some err => (some err, 1)
    | none =>
      let res := broadcastOnCount e rest
      (res.1, res.2 + 1)

/-- `EventBroadcastListener.On` (`listeners.go` lines 28-35). -/
def EventBroadcastListener.On (b : EventBroadcastListener) (e : Event) :
    Option GoErr × Nat :=
  broadcastOnCount e b.Listeners

theorem broadcastOnCount_allOk (e : Event) (ls : List ListenerFun)
    (h : ∀ l ∈ ls, l e = none) :
    broadcastOnCount e ls = (none, ls.length) := by
  induction ls with
  | nil => rfl
  | cons l ls ih =>
    have hl : l e = none := h l (List.mem_cons_self l ls)
    have ih' := ih fun w hw => h w (List.mem_cons_of_mem l hw)
    simp [broadcastOnCount, hl, ih']

theorem broadcastOnCount_firstFail (e : Event) (pre : List ListenerFun)
    (f : ListenerFun) (post : List ListenerFun) (err : GoErr)
    (hpre : ∀ l ∈ pre, l e = none) (hf : f e = some err) :
    broadcastOnCount e (pre ++ f :: post) = (some err, pre.length + 1) := by
  induction pre with
  | nil => simp [broadcastOnCount, hf]
  | cons l pre ih =>
    have hl : l e = none := hpre l (List.mem_cons_self l pre)
    have ih' := ih fun w hw => hpre w (List.mem_cons_of_mem l hw)
    simp [broadcastOnCount, hl, ih']

/-- C9: the broadcast listener invokes its sub-listeners in sequence order:
if every sub-listener succeeds it returns success having invoked all of
them, and otherwise it stops at the first failing sub-listener, returns
that failure, and the sub-listeners after it never observe the event (only
the first `pre.length + 1` are invoked). -/
theorem EventBroadcastListener_On_spec (b : EventBroadcastListener) (e : Event) :
    ((∀ l ∈ b.Listeners, l e = none) →
      b.On e = (none, b.Listeners.length))
    ∧ ∀ pre f post err, b.Listeners = pre ++ f :: post →
        (∀ l ∈ pre, l e = none) → f e = some err →
        b.On e = (some err, pre.length + 1) := by
  constructor
  · intro h
    rw [EventBroadcastListener.On]
    exact broadcastOnCount_allOk e b.Listeners h
  · intro pre f post err hsplit hpre hf
    rw [EventBroadcastListener.On, hsplit]
    exact broadcastOnCount_firstFail e pre f post err hpre hf

/-- Witness for C9 at concrete inputs: three sub-listeners where the second
fails: the error is the second's and only two are invoked; and a broadcast
of two always-succeeding sub-listeners invokes both and succeeds. -/
theorem EventBroadcastListener_On_spec_witness :
    EventBroadcastListener.On
        ⟨[fun _ => none, fun _ => some "boom", fun _ => some "later"]⟩ startEv
      = (some "boom", 2)
    ∧ EventBroadcastListener.On ⟨[fun _ => none, fun _ => none]⟩ startEv
      = (none, 2) := by
  constructor
  · exact (EventBroadcastListener_On_spec
      ⟨[fun _ => none, fun _ => some "boom", fun _ => some "later"]⟩ startEv).2
      [fun _ => none] (fun _ => some "boom") [fun _ => some "later"] "boom"
      rfl (by intro l hl; rw [List.mem_singleton] at hl; rw [hl]) rfl
  · exact (EventBroadcastListener_On_spec
      ⟨[fun _ => none, fun _ => none]⟩ startEv).1
      (by intro l hl; rcases List.mem_cons.mp hl with rfl | hl
          · rfl
          · rw [List.mem_singleton] at hl; rw [hl])

/-! ### The transactional listener (`listeners.go` lines 56-84) -/

/-- The database as the transactional listener sees it: a counter for fresh
transaction handles and the sets of open / committed / rolled-back
transactions. -/
structure DBState where
  nextTx : Nat
  openTxs : List Nat
  committed : List Nat
  rolledBack : List Nat
  deriving DecidableEq

/-- `DB.Begin()`: opens a fresh transaction and returns its handle. -/
def DBState.begin (db : DBState) : Nat × DBState :=
  (db.nextTx, ⟨db.nextTx + 1, db.nextTx :: db.openTxs, db.committed, db.rolledBack⟩)

/-- `Tx.Commit()` on a live transaction handle. -/
def DBState.commit (db : DBState) (tx : Nat) : DBState :=
  ⟨db.nextTx, db.openTxs.erase tx, tx :: db.committed, db.rolledBack⟩

/-- `Tx.Rollback()` on a live transaction handle. -/
def DBState.rollback (db : DBState) (tx : Nat) : DBState :=
  ⟨db.nextTx, db.openTxs.erase tx, db.committed, tx :: db.rolledBack⟩

/-- Outcome of one `TransactionalChangesListener.On` call: a returned Go
error value, or a runtime panic from calling a method through a nil
`*sql.Tx`. -/
inductive TxOutcome where
  | ok
  | fail (e : GoErr)
  | nilPanic
  deriving DecidableEq

/-- `TransactionalChangesListener.On` (`listeners.go` lines 62-84).
The Go method has a VALUE receiver, `func (l TransactionalChangesListener)
On(event Event) error`: the body operates on a copy of the receiver, so its
assignments to `l.currentTransaction` are discarded when the method
returns.  `currentTransaction` here is the caller's stored field before the
call; the middle component of the result is that field after the call,
which under value-receiver semantics is always unchanged.  On
`after-change`/`error-during-change` the code calls
`l.currentTransaction.Commit()`/`.Rollback()`, which on a nil `*sql.Tx`
dereferences a nil pointer (`nilPanic`). -/
def TransactionalChangesListener.On (currentTransaction : Option Nat)
    (db : DBState) (event : Event) : TxOutcome × Option Nat × DBState :=
  match event.type with
  | .EventBeforeChange =>
    -- `l.currentTransaction, err = l.DB.Begin()` writes only the copy's field
    let res := db.begin
    (.ok, currentTransaction, res.2)
  | .EventAfterChange =>
    match currentTransaction with
    | none => (.nilPanic, currentTransaction, db)
    | some tx => (.ok, currentTransaction, db.commit tx)
  | .EventErrorDuringChange =>
    match currentTransaction with
    | none => (.nilPanic, currentTransaction, db)
    | some tx => (.ok, currentTransaction, db.rollback tx)
  | _ => (.ok, currentTransaction, db)

/-- C8 (code bug): evaluating the transactional listener at the event pair
one successful change produces.  On `before-change` a transaction is opened
but the listener's retained scope is still `none` (the value receiver
discarded the assignment); the subsequent `after-change` therefore commits
through a nil `*sql.Tx` and panics, and the opened transaction is never
committed. -/
theorem transactionalListener_value_receiver_bug :
    (TransactionalChangesListener.On none ⟨0, [], [], []⟩
        (beforeChangeEv ⟨1, none, none⟩)
      = (.ok, none, ⟨1, [0], [], []⟩))
    ∧ (TransactionalChangesListener.On none ⟨1, [0], [], []⟩
        (afterChangeEv ⟨1, none, none⟩)
      = (.nilPanic, none, ⟨1, [0], [], []⟩)) := by
  constructor
  · rfl
  · rfl

/-! ### Partial failure -/

theorem applyLoop_upgrade_failAt (listener : ListenerFun)
    (syncRes : Int → Option GoErr) (pre : List Version) (w : Version)
    (post : List Version) (err : GoErr)
    (hL : ∀ e, listener e = none) (hS : ∀ n, syncRes n = none)
    (hpre : ∀ v ∈ pre, v.upgradeResult = none)
    (hw : w.upgradeResult = some err) :
    applyLoop listener syncRes true (pre ++ w :: post)
      = (some (.upgradeErr w.number err),
          pre.flatMap upgradeBlock
            ++ [.listenerOn (beforeChangeEv w), .upgradeCall w,
                .listenerOn (errorDuringChangeEv w err)]) := by
  induction pre with
  | nil => simp [applyLoop, hL, hw]
  | cons v pre ih =>
    have hv : v.upgradeResult = none := hpre v (List.mem_cons_self v pre)
    have ih' := ih fun u hu => hpre u (List.mem_cons_of_mem v hu)
    simp [applyLoop, hL, hS, hv, ih', upgradeBlock]

/-- C6: if, during an upgrade `Sync`, the versions selected to apply are
`pre ++ w :: post` where every version of `pre` upgrades fine and `w`'s
upgrade fails with `err` (the listener not interfering and persists
succeeding), then `Sync` returns the error identifying `w`'s number, every
version of `pre` was persisted via `SyncVersion`, and no version of `post`
was ever attempted (neither its action nor its persist appears in the
trace). -/
theorem sync_upgrade_partial_failure (vr : Versioner)
    (syncRes : Int → Option GoErr) (c t : Int) (pre : List Version)
    (w : Version) (post : List Version) (err : GoErr)
    (hL : ∀ e, vr.listener e = none) (hS : ∀ n, syncRes n = none)
    (hct : c < t)
    (hA : loadVersionsToApply (sortVersions vr.versions) true c t
      = pre ++ w :: post)
    (hpre : ∀ v ∈ pre, v.upgradeResult = none)
    (hw : w.upgradeResult = some err)
    (hN : ((pre ++ w :: post).map fun v => v.number).Nodup) :
    vr.sync (.ok c) syncRes t
      = (some (.upgradeErr w.number err),
          syncHead ++ (pre.flatMap upgradeBlock
            ++ [.listenerOn (beforeChangeEv w), .upgradeCall w,
                .listenerOn (errorDuringChangeEv w err)]))
    ∧ (∀ v ∈ pre, Call.syncVersionCall v.number ∈ (vr.sync (.ok c) syncRes t).2)
    ∧ ∀ v ∈ post, Call.upgradeCall v ∉ (vr.sync (.ok c) syncRes t).2
        ∧ Call.syncVersionCall v.number ∉ (vr.sync (.ok c) syncRes t).2 := by
  have hne : c ≠ t := ne_of_lt hct
  have hdir : (!(decide (t < c))) = true := by simp [lt_asymm hct]
  have hmain : vr.sync (.ok c) syncRes t
      = (some (.upgradeErr w.number err),
          syncHead ++ (pre.flatMap upgradeBlock
            ++ [.listenerOn (beforeChangeEv w), .upgradeCall w,
                .listenerOn (errorDuringChangeEv w err)])) := by
    rw [sync_expand vr syncRes c t hL hne, hdir, hA,
      applyLoop_upgrade_failAt vr.listener syncRes pre w post err hL hS hpre hw]
  -- distinctness facts from the Nodup hypothesis
  rw [List.map_append, List.map_cons, List.nodup_append] at hN
  rcases hN with ⟨-, hmid, hdisj⟩
  rcases List.nodup_cons.mp hmid with ⟨hwpost, -⟩
  refine ⟨hmain, ?_, ?_⟩
  · intro v hv
    rw [hmain]
    simp only [syncHead, upgradeBlock, List.mem_append, List.mem_flatMap,
      List.mem_cons, List.not_mem_nil, or_false]
    right; left
    exact ⟨v, hv, by simp⟩
  · intro v hv
    have hvw : v.number ≠ w.number := by
      intro h
      exact hwpost (h ▸ List.mem_map_of_mem (fun u => u.number) hv)
    have hvpre : ∀ u ∈ pre, v.number ≠ u.number := by
      intro u hu h
      exact hdisj (List.mem_map_of_mem (fun x => x.number) hu)
        (h ▸ (List.mem_cons_of_mem _ (List.mem_map_of_mem (fun x => x.number) hv)))
    constructor
    · intro hmem
      rw [hmain] at hmem
      simp [syncHead, upgradeBlock] at hmem
      rcases hmem with h | rfl
      · exact hvpre v h rfl
      · exact hvw rfl
    · intro hmem
      rw [hmain] at hmem
      simp [syncHead, upgradeBlock] at hmem
      rcases hmem with ⟨u, hu, h⟩
      exact hvpre u hu h

/-- Witness for C6 at the claim's concrete scenario: versions `[1,2,3]`,
current 0, target 4, version 2's upgrade fails: version 1 is persisted,
version 3 is never attempted, and the error identifies version 2. -/
theorem sync_upgrade_partial_failure_witness :
    Versioner.sync
        ⟨[⟨1, none, none⟩, ⟨2, some "boom", none⟩, ⟨3, none, none⟩],
          NoOpListener⟩ (.ok 0) (fun _ => none) 4
      = (some (.upgradeErr 2 "boom"),
          syncHead ++ (([(⟨1, none, none⟩ : Version)].flatMap upgradeBlock)
            ++ [.listenerOn (beforeChangeEv ⟨2, some "boom", none⟩),
                .upgradeCall ⟨2, some "boom", none⟩,
                .listenerOn (errorDuringChangeEv ⟨2, some "boom", none⟩ "boom")]))
    ∧ (∀ v ∈ [(⟨1, none, none⟩ : Version)],
        Call.syncVersionCall v.number
          ∈ (Versioner.sync
              ⟨[⟨1, none, none⟩, ⟨2, some "boom", none⟩, ⟨3, none, none⟩],
                NoOpListener⟩ (.ok 0) (fun _ => none) 4).2)
    ∧ ∀ v ∈ [(⟨3, none, none⟩ : Version)],
        Call.upgradeCall v
          ∉ (Versioner.sync
              ⟨[⟨1, none, none⟩, ⟨2, some "boom", none⟩, ⟨3, none, none⟩],
                NoOpListener⟩ (.ok 0) (fun _ => none) 4).2
        ∧ Call.syncVersionCall v.number
          ∉ (Versioner.sync
              ⟨[⟨1, none, none⟩, ⟨2, some "boom", none⟩, ⟨3, none, none⟩],
                NoOpListener⟩ (.ok 0) (fun _ => none) 4).2 :=
  sync_upgrade_partial_failure
    ⟨[⟨1, none, none⟩, ⟨2, some "boom", none⟩, ⟨3, none, none⟩], NoOpListener⟩
    (fun _ => none) 0 4 [⟨1, none, none⟩] ⟨2, some "boom", none⟩
    [⟨3, none, none⟩] "boom" (fun _ => rfl) (fun _ => rfl) (by decide)
    (by decide) (by decide) rfl (by decide)

/-! ### Listener failures -/

/-- Unfolding `sync` past a successful `start` listener call, `CurrentVersion`
read and `before-sync` listener call, with the `after-sync` and `end`
listener calls left symbolic. -/
theorem sync_expand_weak (vr : Versioner) (syncRes : Int → Option GoErr)
    (c t : Int) (h1 : vr.listener startEv = none)
    (h2 : vr.listener beforeSyncEv = none) (hne : c ≠ t) :
    vr.sync (.ok c) syncRes t
      = match applyLoop vr.listener syncRes (!(t < c))
          (loadVersionsToApply (sortVersions vr.versions) (!(t < c)) c t) with
        | (some e, tr) => (some e, syncHead ++ tr)
        | (none, tr) =>
          match vr.listener afterSyncEv with
          | some e =>
            (some (.eventErr .EventAfterSync e),
              syncHead ++ tr ++ [.listenerOn afterSyncEv])
          | none =>
            match vr.listener endEv with
            | some e => (some (.eventErr .EventEnd e), syncHead ++ tr ++ syncTail)
            | none => (none, syncHead ++ tr ++ syncTail) := by
  simp only [Versioner.sync, h1, h2, if_neg hne, syncHead, syncTail]

/-- The apply loop over `pre ++ rest` when every step of `pre` goes through
cleanly: it contributes the full change blocks of `pre` to the trace and
continues as the loop over `rest`. -/
theorem applyLoop_append_ok (listener : ListenerFun)
    (syncRes : Int → Option GoErr) (upgrade : Bool) (pre rest : List Version)
    (hbc : ∀ v ∈ pre, listener (beforeChangeEv v) = none)
    (hac : ∀ v ∈ pre, listener (afterChangeEv v) = none)
    (hact : ∀ v ∈ pre, actionResultOf upgrade v = none)
    (hS : ∀ v ∈ pre, syncRes v.number = none) :
    applyLoop listener syncRes upgrade (pre ++ rest)
      = ((applyLoop listener syncRes upgrade rest).1,
          pre.flatMap (changeBlock upgrade)
            ++ (applyLoop listener syncRes upgrade rest).2) := by
  induction pre with
  | nil => simp
  | cons v pre ih =>
    have hb : listener (beforeChangeEv v) = none :=
      hbc v (List.mem_cons_self v pre)
    have ha : listener (afterChangeEv v) = none :=
      hac v (List.mem_cons_self v pre)
    have hv : actionResultOf upgrade v = none :=
      hact v (List.mem_cons_self v pre)
    have hs : syncRes v.number = none := hS v (List.mem_cons_self v pre)
    rw [actionResultOf] at hv
    have ih' := ih (fun u hu => hbc u (List.mem_cons_of_mem v hu))
      (fun u hu => hac u (List.mem_cons_of_mem v hu))
      (fun u hu => hact u (List.mem_cons_of_mem v hu))
      (fun u hu => hS u (List.mem_cons_of_mem v hu))
    simp [applyLoop, hb, ha, hv, hs, ih', changeBlock, actionCallOf]

/-- The apply loop when every step goes through cleanly. -/
theorem applyLoop_allOk_generic (listener : ListenerFun)
    (syncRes : Int → Option GoErr) (upgrade : Bool) (l : List Version)
    (hbc : ∀ v ∈ l, listener (beforeChangeEv v) = none)
    (hac : ∀ v ∈ l, listener (afterChangeEv v) = none)
    (hact : ∀ v ∈ l, actionResultOf upgrade v = none)
    (hS : ∀ v ∈ l, syncRes v.number = none) :
    applyLoop listener syncRes upgrade l
      = (none, l.flatMap (changeBlock upgrade)) := by
  have h := applyLoop_append_ok listener syncRes upgrade l [] hbc hac hact hS
  simpa [applyLoop] using h

/-- One loop step whose `before-change` listener call fails. -/
theorem applyLoop_cons_beforeChangeFail (listener : ListenerFun)
    (syncRes : Int → Option GoErr) (upgrade : Bool) (w : Version)
    (post : List Version) (le : GoErr)
    (hb : listener (beforeChangeEv w) = some le) :
    applyLoop listener syncRes upgrade (w :: post)
      = (some (.eventErr .EventBeforeChange le),
          [.listenerOn (beforeChangeEv w)]) := by
  simp [applyLoop, hb]

/-- One loop step whose action fails and whose `error-during-change`
listener call then fails too. -/
theorem applyLoop_cons_actionFail_eventFail (listener : ListenerFun)
    (syncRes : Int → Option GoErr) (upgrade : Bool) (w : Version)
    (post : List Version) (le ue : GoErr)
    (hb : listener (beforeChangeEv w) = none)
    (hw : actionResultOf upgrade w = some ue)
    (herr : listener (errorDuringChangeEv w ue) = some le) :
    applyLoop listener syncRes upgrade (w :: post)
      = (some (actionEventErr upgrade w.number le ue),
          [.listenerOn (beforeChangeEv w), actionCallOf upgrade w,
           .listenerOn (errorDuringChangeEv w ue)]) := by
  rw [actionResultOf] at hw
  simp [applyLoop, hb, hw, herr, actionCallOf, actionEventErr]

/-- One loop step whose `SyncVersion` persist fails and whose
`error-during-change` listener call then fails too. -/
theorem applyLoop_cons_persistFail_eventFail (listener : ListenerFun)
    (syncRes : Int → Option GoErr) (upgrade : Bool) (w : Version)
    (post : List Version) (le ue : GoErr)
    (hb : listener (beforeChangeEv w) = none)
    (hw : actionResultOf upgrade w = none)
    (hs : syncRes w.number = some ue)
    (herr : listener (errorDuringChangeEv w ue) = some le) :
    applyLoop listener syncRes upgrade (w :: post)
      = (some (.syncVersionEventErr w.number le ue),
          [.listenerOn (beforeChangeEv w), actionCallOf upgrade w,
           .syncVersionCall w.number,
           .listenerOn (errorDuringChangeEv w ue)]) := by
  rw [actionResultOf] at hw
  simp [applyLoop, hb, hw, hs, herr, actionCallOf]

/-- One loop step that succeeds up to its `after-change` listener call,
which fails. -/
theorem applyLoop_cons_afterChangeFail (listener : ListenerFun)
    (syncRes : Int → Option GoErr) (upgrade : Bool) (w : Version)
    (post : List Version) (le : GoErr)
    (hb : listener (beforeChangeEv w) = none)
    (hw : actionResultOf upgrade w = none)
    (hs : syncRes w.number = none)
    (ha : listener (afterChangeEv w) = some le) :
    applyLoop listener syncRes upgrade (w :: post)
      = (some (.eventErr .EventAfterChange le), changeBlock upgrade w) := by
  rw [actionResultOf] at hw
  simp [applyLoop, hb, hw, hs, ha, changeBlock, actionCallOf]

/-- When the apply loop aborts with an error, `Sync` returns that error with
the standard head prepended to the loop's trace. -/
theorem sync_loop_err (vr : Versioner) (syncRes : Int → Option GoErr)
    (c t : Int) (e : SyncErr) (tr : List Call)
    (h1 : vr.listener startEv = none) (h2 : vr.listener beforeSyncEv = none)
    (hne : c ≠ t)
    (hal : applyLoop vr.listener syncRes (!(t < c))
        (loadVersionsToApply (sortVersions vr.versions) (!(t < c)) c t)
      = (some e, tr)) :
    vr.sync (.ok c) syncRes t = (some e, syncHead ++ tr) := by
  rw [sync_expand_weak vr syncRes c t h1 h2 hne, hal]

/-- Counterexample to C7 as stated: a listener that fails (only) on the
`error-during-change` event.  The sync does abort, but the returned failure
is the `"upgrade to version %d (event error: %s): %w"` wrap, which carries
the version number and both errors yet not the event type that raised it. -/
theorem listener_event_wrap_counterexample :
    (fun e => if e.type = EventType.EventErrorDuringChange
        then some "lfail" else none : ListenerFun)
      (errorDuringChangeEv ⟨1, some "boom", none⟩ "boom") = some "lfail"
    ∧ (Versioner.sync
        ⟨[⟨1, some "boom", none⟩],
          fun e => if e.type = EventType.EventErrorDuringChange
            then some "lfail" else none⟩
        (.ok 0) (fun _ => none) 2).1
      = some (.upgradeEventErr 1 "lfail" "boom")
    ∧ Option.map SyncErr.wrapsEventType
        (Versioner.sync
          ⟨[⟨1, some "boom", none⟩],
            fun e => if e.type = EventType.EventErrorDuringChange
              then some "lfail" else none⟩
          (.ok 0) (fun _ => none) 2).1
      = some false :=
  ⟨rfl, rfl, rfl⟩

/-- C7 amended: any listener failure aborts the whole `Sync` immediately,
at every one of the ten listener-invocation sites of the code: `start`,
`error` (after a failed `CurrentVersion` read), `end` at the no-op check,
`before-sync`, `before-change` / `error-during-change` (after an action
failure or after a `SyncVersion` failure) / `after-change` at an arbitrary
position of the selection and in either direction, `after-sync`, and `end`
after a successful loop.  For the events `start`, `end`, `before-sync`,
`before-change`, `after-change` and `after-sync` the returned failure
wraps the event type that raised it; for the `error` and
`error-during-change` events it instead wraps the listener's error
together with the underlying error (the event type is not part of the
wrap).  In particular, a listener failure on `before-change` means the
corresponding Version's action is never invoked and `SyncVersion` is never
called for it, as the final traces show. -/
theorem listener_failure_aborts_sync :
    (∀ (vr : Versioner) curRes syncRes (t : Int) le,
      vr.listener startEv = some le →
      vr.sync curRes syncRes t
        = (some (.eventErr .EventStart le), [.listenerOn startEv]))
    ∧ (∀ (vr : Versioner) syncRes (t : Int) le err,
        vr.listener startEv = none →
        vr.listener (errorEv err) = some le →
        vr.sync (.error err) syncRes t
          = (some (.couldNotSyncEventErr le err),
              [.listenerOn startEv, .currentVersionCall, .listenerOn (errorEv err)]))
    ∧ (∀ (vr : Versioner) syncRes (t : Int) le,
        vr.listener startEv = none →
        vr.listener endEv = some le →
        vr.sync (.ok t) syncRes t
          = (some (.eventErr .EventEnd le),
              [.listenerOn startEv, .currentVersionCall, .listenerOn endEv]))
    ∧ (∀ (vr : Versioner) syncRes (c t : Int) le,
        vr.listener startEv = none →
        vr.listener beforeSyncEv = some le → c ≠ t →
        vr.sync (.ok c) syncRes t
          = (some (.eventErr .EventBeforeSync le),
              [.listenerOn startEv, .currentVersionCall, .listenerOn beforeSyncEv]))
    ∧ (∀ (vr : Versioner) syncRes (c t : Int) le pre w post,
        vr.listener startEv = none → vr.listener beforeSyncEv = none →
        loadVersionsToApply (sortVersions vr.versions) (!(t < c)) c t
          = pre ++ w :: post →
        (∀ v ∈ pre, vr.listener (beforeChangeEv v) = none) →
        (∀ v ∈ pre, vr.listener (afterChangeEv v) = none) →
        (∀ v ∈ pre, actionResultOf (!(t < c)) v = none) →
        (∀ v ∈ pre, syncRes v.number = none) →
        vr.listener (beforeChangeEv w) = some le →
        c ≠ t →
        vr.sync (.ok c) syncRes t
          = (some (.eventErr .EventBeforeChange le),
              syncHead ++ (pre.flatMap (changeBlock (!(t < c)))
                ++ [.listenerOn (beforeChangeEv w)])))
    ∧ (∀ (vr : Versioner) syncRes (c t : Int) le ue pre w post,
        vr.listener startEv = none → vr.listener beforeSyncEv = none →
        loadVersionsToApply (sortVersions vr.versions) (!(t < c)) c t
          = pre ++ w :: post →
        (∀ v ∈ pre, vr.listener (beforeChangeEv v) = none) →
        (∀ v ∈ pre, vr.listener (afterChangeEv v) = none) →
        (∀ v ∈ pre, actionResultOf (!(t < c)) v = none) →
        (∀ v ∈ pre, syncRes v.number = none) →
        vr.listener (beforeChangeEv w) = none →
        actionResultOf (!(t < c)) w = some ue →
        vr.listener (errorDuringChangeEv w ue) = some le →
        c ≠ t →
        vr.sync (.ok c) syncRes t
          = (some (actionEventErr (!(t < c)) w.number le ue),
              syncHead ++ (pre.flatMap (changeBlock (!(t < c)))
                ++ [.listenerOn (beforeChangeEv w), actionCallOf (!(t < c)) w,
                    .listenerOn (errorDuringChangeEv w ue)])))
    ∧ (∀ (vr : Versioner) syncRes (c t : Int) le ue pre w post,
        vr.listener startEv = none → vr.listener beforeSyncEv = none →
        loadVersionsToApply (sortVersions vr.versions) (!(t < c)) c t
          = pre ++ w :: post →
        (∀ v ∈ pre, vr.listener (beforeChangeEv v) = none) →
        (∀ v ∈ pre, vr.listener (afterChangeEv v) = none) →
        (∀ v ∈ pre, actionResultOf (!(t < c)) v = none) →
        (∀ v ∈ pre, syncRes v.number = none) →
        vr.listener (beforeChangeEv w) = none →
        actionResultOf (!(t < c)) w = none →
        syncRes w.number = some ue →
        vr.listener (errorDuringChangeEv w ue) = some le →
        c ≠ t →
        vr.sync (.ok c) syncRes t
          = (some (.syncVersionEventErr w.number le ue),
              syncHead ++ (pre.flatMap (changeBlock (!(t < c)))
                ++ [.listenerOn (beforeChangeEv w), actionCallOf (!(t < c)) w,
                    .syncVersionCall w.number,
                    .listenerOn (errorDuringChangeEv w ue)])))
    ∧ (∀ (vr : Versioner) syncRes (c t : Int) le pre w post,
        vr.listener startEv = none → vr.listener beforeSyncEv = none →
        loadVersionsToApply (sortVersions vr.versions) (!(t < c)) c t
          = pre ++ w :: post →
        (∀ v ∈ pre, vr.listener (beforeChangeEv v) = none) →
        (∀ v ∈ pre, vr.listener (afterChangeEv v) = none) →
        (∀ v ∈ pre, actionResultOf (!(t < c)) v = none) →
        (∀ v ∈ pre, syncRes v.number = none) →
        vr.listener (beforeChangeEv w) = none →
        actionResultOf (!(t < c)) w = none →
        syncRes w.number = none →
        vr.listener (afterChangeEv w) = some le →
        c ≠ t →
        vr.sync (.ok c) syncRes t
          = (some (.eventErr .EventAfterChange le),
              syncHead ++ (pre.flatMap (changeBlock (!(t < c)))
                ++ changeBlock (!(t < c)) w)))
    ∧ (∀ (vr : Versioner) syncRes (c t : Int) le l,
        vr.listener startEv = none → vr.listener beforeSyncEv = none →
        loadVersionsToApply (sortVersions vr.versions) (!(t < c)) c t = l →
        (∀ v ∈ l, vr.listener (beforeChangeEv v) = none) →
        (∀ v ∈ l, vr.listener (afterChangeEv v) = none) →
        (∀ v ∈ l, actionResultOf (!(t < c)) v = none) →
        (∀ v ∈ l, syncRes v.number = none) →
        vr.listener afterSyncEv = some le →
        c ≠ t →
        vr.sync (.ok c) syncRes t
          = (some (.eventErr .EventAfterSync le),
              syncHead ++ l.flatMap (changeBlock (!(t < c)))
                ++ [.listenerOn afterSyncEv]))
    ∧ ∀ (vr : Versioner) syncRes (c t : Int) le l,
        vr.listener startEv = none → vr.listener beforeSyncEv = none →
        loadVersionsToApply (sortVersions vr.versions) (!(t < c)) c t = l →
        (∀ v ∈ l, vr.listener (beforeChangeEv v) = none) →
        (∀ v ∈ l, vr.listener (afterChangeEv v) = none) →
        (∀ v ∈ l, actionResultOf (!(t < c)) v = none) →
        (∀ v ∈ l, syncRes v.number = none) →
        vr.listener afterSyncEv = none →
        vr.listener endEv = some le →
        c ≠ t →
        vr.sync (.ok c) syncRes t
          = (some (.eventErr .EventEnd le),
              syncHead ++ l.flatMap (changeBlock (!(t < c))) ++ syncTail) := by
  refine ⟨?_, ?_, ?_, ?_, ?_, ?_, ?_, ?_, ?_, ?_⟩
  · intro vr curRes syncRes t le h
    simp [Versioner.sync, h]
  · intro vr syncRes t le err h1 h2
    simp [Versioner.sync, h1, h2]
  · intro vr syncRes t le h1 h2
    simp [Versioner.sync, h1, h2]
  · intro vr syncRes c t le h1 h2 hne
    simp [Versioner.sync, h1, h2, if_neg hne]
  · intro vr syncRes c t le pre w post h1 h2 hsel hbc hac hact hS hb hne
    refine sync_loop_err vr syncRes c t _ _ h1 h2 hne ?_
    rw [hsel,
      applyLoop_append_ok vr.listener syncRes (!(t < c)) pre (w :: post)
        hbc hac hact hS,
      applyLoop_cons_beforeChangeFail vr.listener syncRes (!(t < c)) w post le hb]
  · intro vr syncRes c t le ue pre w post h1 h2 hsel hbc hac hact hS hb hw herr hne
    refine sync_loop_err vr syncRes c t _ _ h1 h2 hne ?_
    rw [hsel,
      applyLoop_append_ok vr.listener syncRes (!(t < c)) pre (w :: post)
        hbc hac hact hS,
      applyLoop_cons_actionFail_eventFail vr.listener syncRes (!(t < c)) w post
        le ue hb hw herr]
  · intro vr syncRes c t le ue pre w post h1 h2 hsel hbc hac hact hS hb hw hs herr hne
    refine sync_loop_err vr syncRes c t _ _ h1 h2 hne ?_
    rw [hsel,
      applyLoop_append_ok vr.listener syncRes (!(t < c)) pre (w :: post)
        hbc hac hact hS,
      applyLoop_cons_persistFail_eventFail vr.listener syncRes (!(t < c)) w post
        le ue hb hw hs herr]
  · intro vr syncRes c t le pre w post h1 h2 hsel hbc hac hact hS hb hw hs ha hne
    refine sync_loop_err vr syncRes c t _ _ h1 h2 hne ?_
    rw [hsel,
      applyLoop_append_ok vr.listener syncRes (!(t < c)) pre (w :: post)
        hbc hac hact hS,
      applyLoop_cons_afterChangeFail vr.listener syncRes (!(t < c)) w post
        le hb hw hs ha]
  · intro vr syncRes c t le l h1 h2 hsel hbc hac hact hS haf hne
    rw [sync_expand_weak vr syncRes c t h1 h2 hne, hsel,
      applyLoop_allOk_generic vr.listener syncRes (!(t < c)) l hbc hac hact hS]
    simp [haf]
  · intro vr syncRes c t le l h1 h2 hsel hbc hac hact hS haf he hne
    rw [sync_expand_weak vr syncRes c t h1 h2 hne, hsel,
      applyLoop_allOk_generic vr.listener syncRes (!(t < c)) l hbc hac hact hS]
    simp [haf, he]

/-- Witness for the amended C7: every abort site exercised at a concrete
input (a listener failing on exactly one event per case), including a
non-head position of the selection (versions 1 and 2, the failure at 2),
the rollback direction, the persist-failure shape, and the after-sync and
end failures after a successful non-empty loop. -/
theorem listener_failure_aborts_sync_witness :
    Versioner.sync ⟨[], fun _ => some "l"⟩ (.ok 0) (fun _ => none) 0
      = (some (.eventErr .EventStart "l"), [.listenerOn startEv])
    ∧ Versioner.sync
        ⟨[], fun e => if e.type = EventType.EventError then some "l" else none⟩
        (.error "x") (fun _ => none) 0
      = (some (.couldNotSyncEventErr "l" "x"),
          [.listenerOn startEv, .currentVersionCall, .listenerOn (errorEv "x")])
    ∧ Versioner.sync
        ⟨[], fun e => if e.type = EventType.EventEnd then some "l" else none⟩
        (.ok 0) (fun _ => none) 0
      = (some (.eventErr .EventEnd "l"),
          [.listenerOn startEv, .currentVersionCall, .listenerOn endEv])
    ∧ Versioner.sync
        ⟨[], fun e => if e.type = EventType.EventBeforeSync then some "l" else none⟩
        (.ok 0) (fun _ => none) 1
      = (some (.eventErr .EventBeforeSync "l"),
          [.listenerOn startEv, .currentVersionCall, .listenerOn beforeSyncEv])
    ∧ Versioner.sync
        ⟨[⟨1, none, none⟩, ⟨2, none, none⟩],
          fun e => if e = beforeChangeEv ⟨2, none, none⟩ then some "l" else none⟩
        (.ok 0) (fun _ => none) 3
      = (some (.eventErr .EventBeforeChange "l"),
          syncHead ++ ([(⟨1, none, none⟩ : Version)].flatMap (changeBlock true)
            ++ [.listenerOn (beforeChangeEv ⟨2, none, none⟩)]))
    ∧ Versioner.sync
        ⟨[⟨1, none, none⟩, ⟨2, some "boom", none⟩],
          fun e => if e.type = EventType.EventErrorDuringChange
            then some "l" else none⟩
        (.ok 0) (fun _ => none) 3
      = (some (.upgradeEventErr 2 "l" "boom"),
          syncHead ++ ([(⟨1, none, none⟩ : Version)].flatMap (changeBlock true)
            ++ [.listenerOn (beforeChangeEv ⟨2, some "boom", none⟩),
                .upgradeCall ⟨2, some "boom", none⟩,
                .listenerOn (errorDuringChangeEv ⟨2, some "boom", none⟩ "boom")]))
    ∧ Versioner.sync
        ⟨[⟨1, none, some "rboom"⟩, ⟨2, none, none⟩],
          fun e => if e.type = EventType.EventErrorDuringChange
            then some "l" else none⟩
        (.ok 3) (fun _ => none) 0
      = (some (.rollbackEventErr 1 "l" "rboom"),
          syncHead ++ ([(⟨2, none, none⟩ : Version)].flatMap (changeBlock false)
            ++ [.listenerOn (beforeChangeEv ⟨1, none, some "rboom"⟩),
                .rollbackCall ⟨1, none, some "rboom"⟩,
                .listenerOn (errorDuringChangeEv ⟨1, none, some "rboom"⟩ "rboom")]))
    ∧ Versioner.sync
        ⟨[⟨1, none, none⟩, ⟨2, none, none⟩],
          fun e => if e.type = EventType.EventErrorDuringChange
            then some "l" else none⟩
        (.ok 0) (fun n => if n = 2 then some "pfail" else none) 3
      = (some (.syncVersionEventErr 2 "l" "pfail"),
          syncHead ++ ([(⟨1, none, none⟩ : Version)].flatMap (changeBlock true)
            ++ [.listenerOn (beforeChangeEv ⟨2, none, none⟩),
                .upgradeCall ⟨2, none, none⟩, .syncVersionCall 2,
                .listenerOn (errorDuringChangeEv ⟨2, none, none⟩ "pfail")]))
    ∧ Versioner.sync
        ⟨[⟨1, none, none⟩, ⟨2, none, none⟩],
          fun e => if e = afterChangeEv ⟨2, none, none⟩ then some "l" else none⟩
        (.ok 0) (fun _ => none) 3
      = (some (.eventErr .EventAfterChange "l"),
          syncHead ++ ([(⟨1, none, none⟩ : Version)].flatMap (changeBlock true)
            ++ changeBlock true ⟨2, none, none⟩))
    ∧ Versioner.sync
        ⟨[⟨1, none, none⟩],
          fun e => if e.type = EventType.EventAfterSync then some "l" else none⟩
        (.ok 0) (fun _ => none) 2
      = (some (.eventErr .EventAfterSync "l"),
          syncHead ++ [(⟨1, none, none⟩ : Version)].flatMap (changeBlock true)
            ++ [.listenerOn afterSyncEv])
    ∧ Versioner.sync
        ⟨[⟨1, none, none⟩],
          fun e => if e.type = EventType.EventEnd then some "l" else none⟩
        (.ok 0) (fun _ => none) 2
      = (some (.eventErr .EventEnd "l"),
          syncHead ++ [(⟨1, none, none⟩ : Version)].flatMap (changeBlock true)
            ++ syncTail) :=
  ⟨listener_failure_aborts_sync.1 ⟨[], fun _ => some "l"⟩ (.ok 0)
      (fun _ => none) 0 "l" rfl,
    listener_failure_aborts_sync.2.1
      ⟨[], fun e => if e.type = EventType.EventError then some "l" else none⟩
      (fun _ => none) 0 "l" "x" rfl rfl,
    listener_failure_aborts_sync.2.2.1
      ⟨[], fun e => if e.type = EventType.EventEnd then some "l" else none⟩
      (fun _ => none) 0 "l" rfl rfl,
    listener_failure_aborts_sync.2.2.2.1
      ⟨[], fun e => if e.type = EventType.EventBeforeSync then some "l" else none⟩
      (fun _ => none) 0 1 "l" rfl rfl (by decide),
    listener_failure_aborts_sync.2.2.2.2.1
      ⟨[⟨1, none, none⟩, ⟨2, none, none⟩],
        fun e => if e = beforeChangeEv ⟨2, none, none⟩ then some "l" else none⟩
      (fun _ => none) 0 3 "l" [⟨1, none, none⟩] ⟨2, none, none⟩ []
      rfl rfl (by decide) (by decide) (by decide) (by decide) (by decide)
      (by decide) (by decide),
    listener_failure_aborts_sync.2.2.2.2.2.1
      ⟨[⟨1, none, none⟩, ⟨2, some "boom", none⟩],
        fun e => if e.type = EventType.EventErrorDuringChange
          then some "l" else none⟩
      (fun _ => none) 0 3 "l" "boom" [⟨1, none, none⟩] ⟨2, some "boom", none⟩ []
      rfl rfl (by decide) (by decide) (by decide) (by decide) (by decide)
      (by decide) (by decide) (by decide) (by decide),
    listener_failure_aborts_sync.2.2.2.2.2.1
      ⟨[⟨1, none, some "rboom"⟩, ⟨2, none, none⟩],
        fun e => if e.type = EventType.EventErrorDuringChange
          then some "l" else none⟩
      (fun _ => none) 3 0 "l" "rboom" [⟨2, none, none⟩] ⟨1, none, some "rboom"⟩ []
      rfl rfl (by decide) (by decide) (by decide) (by decide) (by decide)
      (by decide) (by decide) (by decide) (by decide),
    listener_failure_aborts_sync.2.2.2.2.2.2.1
      ⟨[⟨1, none, none⟩, ⟨2, none, none⟩],
        fun e => if e.type = EventType.EventErrorDuringChange
          then some "l" else none⟩
      (fun n => if n = 2 then some "pfail" else none) 0 3 "l" "pfail"
      [⟨1, none, none⟩] ⟨2, none, none⟩ []
      rfl rfl (by decide) (by decide) (by decide) (by decide) (by decide)
      (by decide) (by decide) (by decide) (by decide) (by decide),
    listener_failure_aborts_sync.2.2.2.2.2.2.2.1
      ⟨[⟨1, none, none⟩, ⟨2, none, none⟩],
        fun e => if e = afterChangeEv ⟨2, none, none⟩ then some "l" else none⟩
      (fun _ => none) 0 3 "l" [⟨1, none, none⟩] ⟨2, none, none⟩ []
      rfl rfl (by decide) (by decide) (by decide) (by decide) (by decide)
      (by decide) (by decide) (by decide) (by decide) (by decide),
    listener_failure_aborts_sync.2.2.2.2.2.2.2.2.1
      ⟨[⟨1, none, none⟩],
        fun e => if e.type = EventType.EventAfterSync then some "l" else none⟩
      (fun _ => none) 0 2 "l" [⟨1, none, none⟩]
      rfl rfl (by decide) (by decide) (by decide) (by decide) (by decide)
      rfl (by decide),
    listener_failure_aborts_sync.2.2.2.2.2.2.2.2.2
      ⟨[⟨1, none, none⟩],
        fun e => if e.type = EventType.EventEnd then some "l" else none⟩
      (fun _ => none) 0 2 "l" [⟨1, none, none⟩]
      rfl rfl (by decide) (by decide) (by decide) (by decide) (by decide)
      rfl rfl (by decide)⟩

/-! ### Lemmas about the recorded version -/

theorem lastSyncedIn_append (xs ys : List Call) (r : Int) :
    lastSyncedIn (xs ++ ys) r = lastSyncedIn ys (lastSyncedIn xs r) :=
  List.foldl_append ..

theorem lastSyncedIn_syncHead (r : Int) : lastSyncedIn syncHead r = r := rfl

theorem lastSyncedIn_syncTail (r : Int) : lastSyncedIn syncTail r = r := rfl

theorem lastSyncedIn_upgradeBlock (v : Version) (r : Int) :
    lastSyncedIn (upgradeBlock v) r = v.number := rfl

theorem lastSyncedIn_rollbackBlock (v : Version) (r : Int) :
    lastSyncedIn (rollbackBlock v) r = v.number := rfl

theorem lastSyncedIn_flatMap_concat (blk : Version → List Call)
    (hblk : ∀ v x, lastSyncedIn (blk v) x = v.number)
    (B : List Version) (w : Version) (r : Int) :
    lastSyncedIn ((B ++ [w]).flatMap blk) r = w.number := by
  rw [List.flatMap_append, lastSyncedIn_append]
  simp only [List.flatMap_cons, List.flatMap_nil, List.append_nil]
  exact hblk w _

theorem lastSyncedIn_of_no_syncVersion (calls : List Call) (r : Int)
    (h : ∀ n, Call.syncVersionCall n ∉ calls) : lastSyncedIn calls r = r := by
  induction calls generalizing r with
  | nil => rfl
  | cons call calls ih =>
    have h' : ∀ n, Call.syncVersionCall n ∉ calls :=
      fun n hn => h n (List.mem_cons_of_mem call hn)
    rcases call with e | _ | v | v | n
    · exact ih r h'
    · exact ih r h'
    · exact ih r h'
    · exact ih r h'
    · exact absurd (List.mem_cons_self _ _) (h n)

theorem lastSyncedIn_mem (calls : List Call) (r : Int)
    (h : ∃ m, Call.syncVersionCall m ∈ calls) :
    Call.syncVersionCall (lastSyncedIn calls r) ∈ calls := by
  induction calls generalizing r with
  | nil => rcases h with ⟨m, hm⟩; exact absurd hm (List.not_mem_nil _)
  | cons call calls ih =>
    by_cases hrest : ∃ m, Call.syncVersionCall m ∈ calls
    · rcases call with e | _ | v | v | n
      all_goals exact List.mem_cons_of_mem _ (ih _ hrest)
    · push_neg at hrest
      rcases call with e | _ | v | v | n
      · rcases h with ⟨m, hm⟩
        rcases List.mem_cons.mp hm with hm | hm
        · exact absurd hm (by simp)
        · exact absurd hm (hrest m)
      · rcases h with ⟨m, hm⟩
        rcases List.mem_cons.mp hm with hm | hm
        · exact absurd hm (by simp)
        · exact absurd hm (hrest m)
      · rcases h with ⟨m, hm⟩
        rcases List.mem_cons.mp hm with hm | hm
        · exact absurd hm (by simp)
        · exact absurd hm (hrest m)
      · rcases h with ⟨m, hm⟩
        rcases List.mem_cons.mp hm with hm | hm
        · exact absurd hm (by simp)
        · exact absurd hm (hrest m)
      · have : lastSyncedIn (Call.syncVersionCall n :: calls) r
            = lastSyncedIn calls n := rfl
        rw [this, lastSyncedIn_of_no_syncVersion calls n hrest]
        exact List.mem_cons_self _ _

theorem sync_upgrade_canonical (vr : Versioner) (syncRes : Int → Option GoErr)
    (c t : Int) (hL : ∀ e, vr.listener e = none) (hS : ∀ n, syncRes n = none)
    (hU : ∀ v ∈ vr.versions, c < v.number → v.number < t → v.upgradeResult = none)
    (hct : c < t) :
    vr.sync (.ok c) syncRes t
      = (none, syncHead
          ++ ((sortVersions vr.versions).filter
              fun v => decide (c < v.number ∧ v.number < t)).flatMap upgradeBlock
          ++ syncTail) := by
  have hne : c ≠ t := ne_of_lt hct
  have hdir : (!(decide (t < c))) = true := by simp [lt_asymm hct]
  rw [sync_expand vr syncRes c t hL hne, hdir, loadVersionsToApply_true,
    applyLoop_upgrade_allOk vr.listener syncRes _ hL hS ?_]
  intro v hv
  rw [mem_sortedFilter] at hv
  rcases hv with ⟨hvv, hvp⟩
  rw [decide_eq_true_eq] at hvp
  exact hU v hvv hvp.1 hvp.2

theorem sync_rollback_canonical (vr : Versioner) (syncRes : Int → Option GoErr)
    (c t : Int) (hL : ∀ e, vr.listener e = none) (hS : ∀ n, syncRes n = none)
    (hR : ∀ v ∈ vr.versions, t < v.number → v.number < c → v.rollbackResult = none)
    (htc : t < c) :
    vr.sync (.ok c) syncRes t
      = (none, syncHead
          ++ ((sortVersions vr.versions).filter
              fun v => decide (v.number < c ∧ t < v.number)).reverse.flatMap
              rollbackBlock
          ++ syncTail) := by
  have hne : c ≠ t := (ne_of_lt htc).symm
  have hdir : (!(decide (t < c))) = false := by simp [htc]
  rw [sync_expand vr syncRes c t hL hne, hdir, loadVersionsToApply_false,
    applyLoop_rollback_allOk vr.listener syncRes _ hL hS ?_]
  intro v hv
  rw [List.mem_reverse, mem_sortedFilter] at hv
  rcases hv with ⟨hvv, hvp⟩
  rw [decide_eq_true_eq] at hvp
  exact hR v hvv hvp.2 hvp.1

theorem sync_empty_selection (vr : Versioner) (syncRes : Int → Option GoErr)
    (c t : Int) (hL : ∀ e, vr.listener e = none) (hne : c ≠ t)
    (hsel : loadVersionsToApply (sortVersions vr.versions) (!(t < c)) c t = []) :
    vr.sync (.ok c) syncRes t = (none, syncHead ++ syncTail) := by
  rw [sync_expand vr syncRes c t hL hne, hsel]
  simp [applyLoop]

theorem no_action_calls_syncHead_syncTail :
    ∀ call ∈ syncHead ++ syncTail,
      (∀ w, call ≠ Call.upgradeCall w) ∧ (∀ w, call ≠ Call.rollbackCall w)
      ∧ ∀ n, call ≠ Call.syncVersionCall n := by
  intro call hc
  simp only [syncHead, syncTail, List.mem_append, List.mem_cons,
    List.not_mem_nil, or_false] at hc
  rcases hc with (rfl | rfl | rfl) | (rfl | rfl) <;>
    exact ⟨fun _ h => Call.noConfusion h, fun _ h => Call.noConfusion h,
      fun _ h => Call.noConfusion h⟩

theorem no_action_calls_shortCircuit :
    ∀ call ∈ [Call.listenerOn startEv, Call.currentVersionCall,
        Call.listenerOn endEv],
      (∀ w, call ≠ Call.upgradeCall w) ∧ (∀ w, call ≠ Call.rollbackCall w)
      ∧ ∀ n, call ≠ Call.syncVersionCall n := by
  intro call hc
  simp only [List.mem_cons, List.not_mem_nil, or_false] at hc
  rcases hc with rfl | rfl | rfl <;>
    exact ⟨fun _ h => Call.noConfusion h, fun _ h => Call.noConfusion h,
      fun _ h => Call.noConfusion h⟩

/-- Counterexample to C3 as stated: one version numbered 1, register applier
starting at 0, target 2.  The first `Sync(2)` succeeds and records version
1 (never 2 — the window is strictly below the target), so the second
`Sync(2)` reads current = 1 ≠ 2: it is NOT short-circuited at the equality
check and emits the `before-sync` and `after-sync` events, not only `start`
then `end` (though it applies nothing). -/
theorem sync_twice_counterexample :
    (Versioner.syncRegister ⟨[⟨1, none, none⟩], NoOpListener⟩ 0 2).1 = none
    ∧ (Versioner.syncRegister ⟨[⟨1, none, none⟩], NoOpListener⟩ 0 2).2.2 = 1
    ∧ (Versioner.syncRegister ⟨[⟨1, none, none⟩], NoOpListener⟩ 1 2).2.1
      = [.listenerOn startEv, .currentVersionCall, .listenerOn beforeSyncEv,
          .listenerOn afterSyncEv, .listenerOn endEv]
    ∧ Call.listenerOn beforeSyncEv
      ∈ (Versioner.syncRegister ⟨[⟨1, none, none⟩], NoOpListener⟩ 1 2).2.1 := by
  refine ⟨rfl, rfl, rfl, ?_⟩
  rw [(by rfl :
    (Versioner.syncRegister ⟨[⟨1, none, none⟩], NoOpListener⟩ 1 2).2.1
      = [.listenerOn startEv, .currentVersionCall, .listenerOn beforeSyncEv,
          .listenerOn afterSyncEv, .listenerOn endEv])]
  simp

/-- C3 amended: calling `Sync(v)` twice in a row against a register-style
applier, with no state change outside the engine (listener inert, all
actions and persists succeeding), leaves the second call a behavioural
no-op on the structure: it succeeds, records nothing new, runs no upgrade
or rollback script and performs no `SyncVersion` call.  It is however NOT
short-circuited at the equality check unless the first call already was:
when the first call applied at least one version the recorded version is
strictly between the endpoints, so the second call re-reads a current
version different from `v` and emits `before-sync`/`after-sync` (see the
counterexample). -/
theorem sync_twice_second_run_applies_nothing (vr : Versioner) (c v : Int)
    (hL : ∀ e, vr.listener e = none)
    (hU : ∀ w ∈ vr.versions, w.upgradeResult = none)
    (hR : ∀ w ∈ vr.versions, w.rollbackResult = none) :
    (vr.syncRegister c v).1 = none
    ∧ (vr.syncRegister (vr.syncRegister c v).2.2 v).1 = none
    ∧ (vr.syncRegister (vr.syncRegister c v).2.2 v).2.2
        = (vr.syncRegister c v).2.2
    ∧ ∀ call ∈ (vr.syncRegister (vr.syncRegister c v).2.2 v).2.1,
        (∀ w, call ≠ Call.upgradeCall w) ∧ (∀ w, call ≠ Call.rollbackCall w)
        ∧ ∀ n, call ≠ Call.syncVersionCall n := by
  rcases lt_trichotomy c v with hlt | rfl | hgt
  · -- upgrade direction
    have h1 := sync_upgrade_canonical vr (fun _ => none) c v hL (fun _ => rfl)
      (fun w hw _ _ => hU w hw) hlt
    have hsorted : ((sortVersions vr.versions).filter
        fun w => decide (c < w.number ∧ w.number < v)).Pairwise
          fun a b => a.number ≤ b.number :=
      (sortVersions_sorted vr.versions).filter _
    rcases ((sortVersions vr.versions).filter
        fun w => decide (c < w.number ∧ w.number < v)).eq_nil_or_concat with
      hAe | ⟨B, w, hBw⟩
    · -- nothing was selected: the recorded version is unchanged
      have hreg : (vr.syncRegister c v).2.2 = c := by
        simp only [Versioner.syncRegister, h1]
        rw [hAe]
        rfl
      have h2 : vr.sync (.ok c) (fun _ => none) v
          = (none, syncHead ++ syncTail) := by
        rw [h1, hAe]
        simp
      rw [hreg]
      refine ⟨?_, ?_, ?_, ?_⟩
      · simp only [Versioner.syncRegister, h1]
      · simp only [Versioner.syncRegister, h2]
      · simp only [Versioner.syncRegister, h2]
        rfl
      · intro call hc
        rw [(by simp only [Versioner.syncRegister, h2] :
          (vr.syncRegister c v).2.1 = syncHead ++ syncTail)] at hc
        exact no_action_calls_syncHead_syncTail call hc
    · rw [List.concat_eq_append] at hBw
      -- the recorded version is the last (largest) applied number
      have hreg : (vr.syncRegister c v).2.2 = w.number := by
        simp only [Versioner.syncRegister, h1]
        rw [hBw, lastSyncedIn_append, lastSyncedIn_append,
          lastSyncedIn_syncHead,
          lastSyncedIn_flatMap_concat upgradeBlock lastSyncedIn_upgradeBlock,
          lastSyncedIn_syncTail]
      have hwmem : w ∈ (sortVersions vr.versions).filter
          fun u => decide (c < u.number ∧ u.number < v) := by
        rw [hBw]
        simp
      rw [mem_sortedFilter] at hwmem
      rcases hwmem with ⟨hwv, hwp⟩
      rw [decide_eq_true_eq] at hwp
      rcases hwp with ⟨hcw, hwlt⟩
      have hble : ∀ b ∈ B, b.number ≤ w.number := by
        rw [hBw, List.pairwise_append] at hsorted
        exact fun b hb => hsorted.2.2 b hb w (List.mem_singleton_self w)
      -- the second call selects nothing
      have hA2 : ((sortVersions vr.versions).filter
          fun u => decide (w.number < u.number ∧ u.number < v)) = [] := by
        rw [List.filter_eq_nil_iff]
        intro u hu hp
        rw [decide_eq_true_eq] at hp
        have humem : u ∈ (sortVersions vr.versions).filter
            fun x => decide (c < x.number ∧ x.number < v) := by
          rw [List.mem_filter]
          refine ⟨hu, ?_⟩
          rw [decide_eq_true_eq]
          exact ⟨lt_trans hcw hp.1, hp.2⟩
        rw [hBw, List.mem_append] at humem
        rcases humem with hmB | hmw
        · exact absurd (hble u hmB) (not_le.mpr hp.1)
        · rw [List.mem_singleton] at hmw
          rw [hmw] at hp
          exact lt_irrefl _ hp.1
      have hsel2 : loadVersionsToApply (sortVersions vr.versions)
          (!(v < w.number)) w.number v = [] := by
        have hd2 : (!(decide (v < w.number))) = true := by simp [lt_asymm hwlt]
        rw [hd2, loadVersionsToApply_true, hA2]
      have h2 : vr.sync (.ok w.number) (fun _ => none) v
          = (none, syncHead ++ syncTail) :=
        sync_empty_selection vr (fun _ => none) w.number v hL
          (ne_of_lt hwlt) hsel2
      rw [hreg]
      refine ⟨?_, ?_, ?_, ?_⟩
      · simp only [Versioner.syncRegister, h1]
      · simp only [Versioner.syncRegister, h2]
      · simp only [Versioner.syncRegister, h2]
        rfl
      · intro call hc
        rw [(by simp only [Versioner.syncRegister, h2] :
          (vr.syncRegister w.number v).2.1 = syncHead ++ syncTail)] at hc
        exact no_action_calls_syncHead_syncTail call hc
  · -- current equals target: both calls short-circuit
    have h1 : vr.sync (.ok c) (fun _ => none) c
        = (none, [.listenerOn startEv, .currentVersionCall,
            .listenerOn endEv]) := by
      simp [Versioner.sync, hL]
    have hreg : (vr.syncRegister c c).2.2 = c := by
      simp only [Versioner.syncRegister, h1]
      rfl
    rw [hreg]
    refine ⟨?_, ?_, ?_, ?_⟩
    · simp only [Versioner.syncRegister, h1]
    · simp only [Versioner.syncRegister, h1]
    · simp only [Versioner.syncRegister, h1]
      rfl
    · intro call hc
      rw [(by simp only [Versioner.syncRegister, h1] :
        (vr.syncRegister c c).2.1
          = [Call.listenerOn startEv, Call.currentVersionCall,
              Call.listenerOn endEv])] at hc
      exact no_action_calls_shortCircuit call hc
  · -- rollback direction
    have h1 := sync_rollback_canonical vr (fun _ => none) c v hL (fun _ => rfl)
      (fun w hw _ _ => hR w hw) hgt
    have hsorted : ((sortVersions vr.versions).filter
        fun w => decide (w.number < c ∧ v < w.number)).Pairwise
          fun a b => a.number ≤ b.number :=
      (sortVersions_sorted vr.versions).filter _
    rcases hAc : ((sortVersions vr.versions).filter
        fun w => decide (w.number < c ∧ v < w.number)) with _ | ⟨w, B⟩
    · -- nothing was selected
      have hreg : (vr.syncRegister c v).2.2 = c := by
        simp only [Versioner.syncRegister, h1]
        rw [hAc]
        rfl
      have h2 : vr.sync (.ok c) (fun _ => none) v
          = (none, syncHead ++ syncTail) := by
        rw [h1, hAc]
        simp
      rw [hreg]
      refine ⟨?_, ?_, ?_, ?_⟩
      · simp only [Versioner.syncRegister, h1]
      · simp only [Versioner.syncRegister, h2]
      · simp only [Versioner.syncRegister, h2]
        rfl
      · intro call hc
        rw [(by simp only [Versioner.syncRegister, h2] :
          (vr.syncRegister c v).2.1 = syncHead ++ syncTail)] at hc
        exact no_action_calls_syncHead_syncTail call hc
    · -- the recorded version is the last applied number, the smallest one
      have hrev : ((sortVersions vr.versions).filter
          fun u => decide (u.number < c ∧ v < u.number)).reverse
            = B.reverse ++ [w] := by
        rw [hAc, List.reverse_cons]
      have hreg : (vr.syncRegister c v).2.2 = w.number := by
        simp only [Versioner.syncRegister, h1]
        rw [hrev, lastSyncedIn_append, lastSyncedIn_append,
          lastSyncedIn_syncHead,
          lastSyncedIn_flatMap_concat rollbackBlock lastSyncedIn_rollbackBlock,
          lastSyncedIn_syncTail]
      have hwmem : w ∈ (sortVersions vr.versions).filter
          fun u => decide (u.number < c ∧ v < u.number) := by
        rw [hAc]
        exact List.mem_cons_self w B
      rw [mem_sortedFilter] at hwmem
      rcases hwmem with ⟨hwv, hwp⟩
      rw [decide_eq_true_eq] at hwp
      rcases hwp with ⟨hwc, hvw⟩
      have hble : ∀ b ∈ B, w.number ≤ b.number := by
        rw [hAc] at hsorted
        exact (List.pairwise_cons.mp hsorted).1
      have hA2 : ((sortVersions vr.versions).filter
          fun u => decide (u.number < w.number ∧ v < u.number)) = [] := by
        rw [List.filter_eq_nil_iff]
        intro u hu hp
        rw [decide_eq_true_eq] at hp
        have humem : u ∈ (sortVersions vr.versions).filter
            fun x => decide (x.number < c ∧ v < x.number) := by
          rw [List.mem_filter]
          refine ⟨hu, ?_⟩
          rw [decide_eq_true_eq]
          exact ⟨lt_trans hp.1 hwc, hp.2⟩
        rw [hAc, List.mem_cons] at humem
        rcases humem with hmw | hmB
        · rw [hmw] at hp
          exact lt_irrefl _ hp.1
        · exact absurd (hble u hmB) (not_le.mpr hp.1)
      have hsel2 : loadVersionsToApply (sortVersions vr.versions)
          (!(v < w.number)) w.number v = [] := by
        have hd2 : (!(decide (v < w.number))) = false := by simp [hvw]
        rw [hd2, loadVersionsToApply_false, hA2]
        rfl
      have h2 : vr.sync (.ok w.number) (fun _ => none) v
          = (none, syncHead ++ syncTail) :=
        sync_empty_selection vr (fun _ => none) w.number v hL
          (ne_of_gt hvw) hsel2
      rw [hreg]
      refine ⟨?_, ?_, ?_, ?_⟩
      · simp only [Versioner.syncRegister, h1]
      · simp only [Versioner.syncRegister, h2]
      · simp only [Versioner.syncRegister, h2]
        rfl
      · intro call hc
        rw [(by simp only [Versioner.syncRegister, h2] :
          (vr.syncRegister w.number v).2.1 = syncHead ++ syncTail)] at hc
        exact no_action_calls_syncHead_syncTail call hc

/-- Witness for the amended C3 at a concrete input: versions 1 and 2,
register starting at 0, target 3, synced twice. -/
theorem sync_twice_second_run_applies_nothing_witness :
    (Versioner.syncRegister
        ⟨[⟨1, none, none⟩, ⟨2, none, none⟩], NoOpListener⟩ 0 3).1 = none
    ∧ (Versioner.syncRegister ⟨[⟨1, none, none⟩, ⟨2, none, none⟩], NoOpListener⟩
        (Versioner.syncRegister
          ⟨[⟨1, none, none⟩, ⟨2, none, none⟩], NoOpListener⟩ 0 3).2.2 3).1 = none
    ∧ (Versioner.syncRegister ⟨[⟨1, none, none⟩, ⟨2, none, none⟩], NoOpListener⟩
        (Versioner.syncRegister
          ⟨[⟨1, none, none⟩, ⟨2, none, none⟩], NoOpListener⟩ 0 3).2.2 3).2.2
      = (Versioner.syncRegister
          ⟨[⟨1, none, none⟩, ⟨2, none, none⟩], NoOpListener⟩ 0 3).2.2
    ∧ ∀ call ∈ (Versioner.syncRegister
        ⟨[⟨1, none, none⟩, ⟨2, none, none⟩], NoOpListener⟩
        (Versioner.syncRegister
          ⟨[⟨1, none, none⟩, ⟨2, none, none⟩], NoOpListener⟩ 0 3).2.2 3).2.1,
        (∀ w, call ≠ Call.upgradeCall w) ∧ (∀ w, call ≠ Call.rollbackCall w)
        ∧ ∀ n, call ≠ Call.syncVersionCall n :=
  sync_twice_second_run_applies_nothing
    ⟨[⟨1, none, none⟩, ⟨2, none, none⟩], NoOpListener⟩ 0 3
    (fun _ => rfl) (by decide) (by decide)

/-! ### Lemmas for C10 -/

theorem syncVersionCall_mem_applyLoop (listener : ListenerFun)
    (syncRes : Int → Option GoErr) (upgrade : Bool) (l : List Version) (n : Int) :
    Call.syncVersionCall n ∈ (applyLoop listener syncRes upgrade l).2 →
      ∃ v ∈ l, n = v.number := by
  induction l with
  | nil =>
    intro h
    simp [applyLoop] at h
  | cons v rest ih =>
    intro h
    rcases hb : listener (beforeChangeEv v) with _ | e
    · rcases hact : (if upgrade then v.upgradeResult else v.rollbackResult)
        with _ | err
      · rcases hs : syncRes v.number with _ | err2
        · rcases ha : listener (afterChangeEv v) with _ | e2
          · simp [applyLoop, hb, hact, hs, ha] at h
            rcases h with h | h | h
            · exact absurd h (by cases upgrade <;> simp)
            · exact ⟨v, List.mem_cons_self v rest, h⟩
            · rcases ih h with ⟨u, hu, hn⟩
              exact ⟨u, List.mem_cons_of_mem v hu, hn⟩
          · simp [applyLoop, hb, hact, hs, ha] at h
            rcases h with h | h
            · exact absurd h (by cases upgrade <;> simp)
            · exact ⟨v, List.mem_cons_self v rest, h⟩
        · simp [applyLoop, hb, hact, hs] at h
          rcases h with h | h
          · exact absurd h (by cases upgrade <;> simp)
          · exact ⟨v, List.mem_cons_self v rest, h⟩
      · simp [applyLoop, hb, hact] at h
        exact absurd h (by cases upgrade <;> simp)
    · simp [applyLoop, hb] at h

theorem syncVersionCall_mem_sync (vr : Versioner) (syncRes : Int → Option GoErr)
    (c t n : Int)
    (h : Call.syncVersionCall n ∈ (vr.sync (.ok c) syncRes t).2) :
    ∃ v ∈ vr.versions, n = v.number
      ∧ ((c < v.number ∧ v.number < t) ∨ (t < v.number ∧ v.number < c)) := by
  rcases hs : vr.listener startEv with _ | e
  · by_cases hct : c = t
    · subst hct
      rcases he : vr.listener endEv with _ | e2
      · simp [Versioner.sync, hs, he] at h
      · simp [Versioner.sync, hs, he] at h
    · rcases hbs : vr.listener beforeSyncEv with _ | e2
      · rcases hal : applyLoop vr.listener syncRes (!(t < c))
            (loadVersionsToApply (sortVersions vr.versions) (!(t < c)) c t)
          with ⟨r, tr⟩
        have htr : Call.syncVersionCall n ∈ tr := by
          rcases r with _ | e3
          · rcases haf : vr.listener afterSyncEv with _ | e4
            · rcases he : vr.listener endEv with _ | e5
              · simpa [Versioner.sync, hs, hbs, hct, hal, haf, he] using h
              · simpa [Versioner.sync, hs, hbs, hct, hal, haf, he] using h
            · simpa [Versioner.sync, hs, hbs, hct, hal, haf] using h
          · simpa [Versioner.sync, hs, hbs, hct, hal] using h
        have hmem := syncVersionCall_mem_applyLoop vr.listener syncRes (!(t < c))
          (loadVersionsToApply (sortVersions vr.versions) (!(t < c)) c t) n
          (by rw [hal]; exact htr)
        rcases hmem with ⟨v, hv, hn⟩
        by_cases htc : t < c
        · have hdir : (!(decide (t < c))) = false := by simp [htc]
          rw [hdir, loadVersionsToApply_false, List.mem_reverse,
            mem_sortedFilter] at hv
          rcases hv with ⟨hvv, hvp⟩
          rw [decide_eq_true_eq] at hvp
          exact ⟨v, hvv, hn, Or.inr ⟨hvp.2, hvp.1⟩⟩
        · have hdir : (!(decide (t < c))) = true := by simp [htc]
          rw [hdir, loadVersionsToApply_true, mem_sortedFilter] at hv
          rcases hv with ⟨hvv, hvp⟩
          rw [decide_eq_true_eq] at hvp
          exact ⟨v, hvv, hn, Or.inl hvp⟩
      · simp [Versioner.sync, hs, hbs, hct] at h
  · simp [Versioner.sync, hs] at h

/-- C10: `SyncVersion` is never invoked with the target version: every
number passed to it is the number of a selected Version, strictly between
the current and target versions; consequently a successful register-applier
`Sync` that performed at least one `SyncVersion` call leaves the recorded
version strictly below the target on upgrade and strictly above it on
rollback. -/
theorem syncVersion_never_called_with_target (vr : Versioner)
    (syncRes : Int → Option GoErr) (c t : Int) :
    (∀ n, Call.syncVersionCall n ∈ (vr.sync (.ok c) syncRes t).2 →
      n ≠ t
      ∧ ∃ v ∈ vr.versions, n = v.number
        ∧ ((c < v.number ∧ v.number < t) ∨ (t < v.number ∧ v.number < c)))
    ∧ ((vr.syncRegister c t).1 = none →
        (∃ m, Call.syncVersionCall m ∈ (vr.syncRegister c t).2.1) →
        (c < t → (vr.syncRegister c t).2.2 < t)
        ∧ (t < c → t < (vr.syncRegister c t).2.2)) := by
  constructor
  · intro n hn
    rcases syncVersionCall_mem_sync vr syncRes c t n hn with ⟨v, hv, rfl, hbounds⟩
    refine ⟨?_, v, hv, rfl, hbounds⟩
    rcases hbounds with ⟨_, h2⟩ | ⟨h1, _⟩
    · exact ne_of_lt h2
    · exact ne_of_gt h1
  · intro _ hex
    have htr : (vr.syncRegister c t).2.1
        = (vr.sync (.ok c) (fun _ => none) t).2 := rfl
    have hreg : (vr.syncRegister c t).2.2
        = lastSyncedIn (vr.sync (.ok c) (fun _ => none) t).2 c := rfl
    rw [htr] at hex
    have hmem := lastSyncedIn_mem _ c hex
    rcases syncVersionCall_mem_sync vr (fun _ => none) c t _ hmem
      with ⟨v, _, hn, hbounds⟩
    rw [hreg, hn]
    constructor
    · intro hct
      rcases hbounds with ⟨_, h2⟩ | ⟨h1, h2⟩
      · exact h2
      · exact absurd (lt_trans h1 h2) (lt_asymm hct)
    · intro htc
      rcases hbounds with ⟨h1, h2⟩ | ⟨h1, _⟩
      · exact absurd (lt_trans h1 h2) (lt_asymm htc)
      · exact h1

/-- Witness for C10 at a concrete input: one version numbered 1, current 0,
target 2: the single `SyncVersion` call got 1, and the recorded version
after the successful sync is strictly below 2. -/
theorem syncVersion_never_called_with_target_witness :
    ((1:Int) ≠ 2
      ∧ ∃ v ∈ [(⟨1, none, none⟩ : Version)], (1:Int) = v.number
        ∧ (((0:Int) < v.number ∧ v.number < 2)
            ∨ ((2:Int) < v.number ∧ v.number < 0)))
    ∧ (((0:Int) < 2 →
        (Versioner.syncRegister ⟨[⟨1, none, none⟩], NoOpListener⟩ 0 2).2.2 < 2)
      ∧ ((2:Int) < 0 →
        (2:Int)
          < (Versioner.syncRegister ⟨[⟨1, none, none⟩], NoOpListener⟩ 0 2).2.2)) :=
  ⟨(syncVersion_never_called_with_target ⟨[⟨1, none, none⟩], NoOpListener⟩
      (fun _ => none) 0 2).1 1 (by decide),
    (syncVersion_never_called_with_target ⟨[⟨1, none, none⟩], NoOpListener⟩
      (fun _ => none) 0 2).2 rfl ⟨1, by decide⟩⟩

end GoDatabaseVersioner
